import Mathlib

/-!
# ShapeShift3D: the drawing canvas history and the upload allow-list

A shallow embedding of `static/js/canvas.js` (the module variables, the
snapshot history with its cursor, the drawing handlers, the submission of a
drawing) and of `handleFileSelect`, `addLoadingState` and `generateUUID` in
`static/js/main.js`.

The module variables of `canvas.js` become the fields of `State`; every
function of the module becomes a function on `State`.  A function whose body
can raise (a `TypeError` on the missing canvas, a `RangeError` on a negative
array length) returns `Except State State`: `.error s` carries the module
variables as they stand when the exception leaves the function.

The browser is a parameter (`Browser`): the PNG encoder behind
`canvas.toDataURL()`, the rasteriser behind `ctx.stroke()` and the decoder and
blitter behind `ctx.drawImage()`.  The two whole-canvas operations the module
uses, `clearRect(0, 0, width, height)` and `fillRect(0, 0, width, height)` with
an opaque fill colour, are fixed by the Canvas 2D standard and are modelled
pixel by pixel.
-/

namespace ShapeShift3D

/-! ## The canvas bitmap and the 2D context -/

/-- One pixel of the canvas bitmap: red, green, blue and alpha, each in 0..255. -/
structure Pixel where
  r : Nat
  g : Nat
  b : Nat
  a : Nat
deriving DecidableEq, Repr

/-- Transparent black, the value of every pixel of a fresh or cleared bitmap. -/
def Pixel.transparent : Pixel := ⟨0, 0, 0, 0⟩

/-- An opaque colour.  Every colour the module assigns to `fillStyle` or
`strokeStyle` is opaque: the keyword `white` and the `#rrggbb` value of the
colour picker. -/
structure Color where
  r : Nat
  g : Nat
  b : Nat
deriving DecidableEq, Repr

/-- The CSS colour `white`. -/
def Color.white : Color := ⟨255, 255, 255⟩

/-- The colour `#000000`, the initial `currentColor` and the default styles. -/
def Color.black : Color := ⟨0, 0, 0⟩

/-- The pixel painted by an opaque colour. -/
def Color.toPixel (c : Color) : Pixel := ⟨c.r, c.g, c.b, 255⟩

/-- The values of `ctx.globalCompositeOperation` the module assigns
(`source-over` is also the default of a fresh context). -/
inductive CompositeOp where
  | sourceOver
  | destinationOut
deriving DecidableEq, Repr

/-- A point in canvas coordinates (`e.clientX - rect.left`, `e.clientY - rect.top`). -/
structure Point where
  x : Int
  y : Int
deriving DecidableEq, Repr

/-- The canvas bitmap: `canvas.width`, `canvas.height` and the pixels in row order. -/
structure Bitmap where
  width : Nat
  height : Nat
  pixels : List Pixel
deriving DecidableEq, Repr

/-- The drawing state of the 2D context that the module reads or writes. -/
structure Ctx2D where
  lineCap : String
  lineJoin : String
  strokeStyle : Color
  lineWidth : Nat
  fillStyle : Color
  globalCompositeOperation : CompositeOp
  path : List Point
deriving DecidableEq, Repr

/-- The assignment `ctx.lineWidth = n`: the setter ignores zero. -/
def Ctx2D.setLineWidth (n : Nat) (ctx : Ctx2D) : Ctx2D :=
  if n = 0 then ctx else { ctx with lineWidth := n }

/-- The state of a context right after `getContext` or after the canvas was
resized (assigning `canvas.width` or `canvas.height` resets the context). -/
def Ctx2D.default : Ctx2D :=
  { lineCap := "butt", lineJoin := "miter", strokeStyle := Color.black, lineWidth := 1,
    fillStyle := Color.black, globalCompositeOperation := CompositeOp.sourceOver, path := [] }

/-- The bitmap of a canvas that was just created or resized: all transparent. -/
def Bitmap.fresh (w h : Nat) : Bitmap :=
  { width := w, height := h, pixels := List.replicate (w * h) Pixel.transparent }

/-- The call `ctx.clearRect(0, 0, canvas.width, canvas.height)`: every pixel becomes
transparent black, whatever the compositing mode. -/
def Bitmap.clearRect (bm : Bitmap) : Bitmap :=
  { bm with pixels := List.replicate (bm.width * bm.height) Pixel.transparent }

/-- Compositing one opaque source pixel of colour `c` onto a destination pixel.
`source-over` with an opaque source yields the source; `destination-out` keeps
the destination only where the source is absent, so an opaque source erases it. -/
def compositeOpaque (op : CompositeOp) (c : Color) (_dst : Pixel) : Pixel :=
  match op with
  | CompositeOp.sourceOver => c.toPixel
  | CompositeOp.destinationOut => Pixel.transparent

/-- The call `ctx.fillRect(0, 0, canvas.width, canvas.height)`: the current `fillStyle`
is composited onto every pixel under the current `globalCompositeOperation`. -/
def Bitmap.fillRect (ctx : Ctx2D) (bm : Bitmap) : Bitmap :=
  { bm with pixels := bm.pixels.map (compositeOpaque ctx.globalCompositeOperation ctx.fillStyle) }

/-- The browser functions the module calls and whose results it does not fix. -/
structure Browser where
  /-- The result of `canvas.toDataURL()` for a bitmap. -/
  toDataURL : Bitmap → String
  /-- The pixels after `ctx.stroke()` of the current path under the current styles. -/
  stroke : Ctx2D → Bitmap → List Pixel
  /-- The pixels after `ctx.drawImage(img, 0, 0)` for an image with the given source. -/
  drawImage : CompositeOp → Option String → Bitmap → List Pixel

/-- The `drawing-canvas` element as `document.getElementById` finds it:
`containerWidth` is `canvas.parentElement.clientWidth`, `width` and `height` are the
size the page gave the element. -/
structure CanvasElement where
  containerWidth : Nat
  width : Nat
  height : Nat
deriving DecidableEq, Repr

/-- The module variables `canvas` and `ctx`, assigned together by `initializeCanvas`. -/
structure Canvas where
  element : CanvasElement
  bitmap : Bitmap
  ctx : Ctx2D
deriving DecidableEq, Repr

/-! ## The module state of `canvas.js` -/

/-- The module variables of `canvas.js`, and `images`: the sources of the images
created by `restoreState` whose `onload` handler has not run yet. -/
structure State where
  canvas : Option Canvas
  isDrawing : Bool
  currentTool : String
  currentColor : Color
  currentSize : Nat
  drawingHistory : List String
  historyStep : Int
  images : List (Option String)
deriving DecidableEq, Repr

/-- The module as loaded (lines 3-5): no canvas, pen, `#000000`, size 5,
`drawingHistory = []`, `historyStep = -1`. -/
def State.initial : State :=
  { canvas := none, isDrawing := false, currentTool := "pen", currentColor := Color.black,
    currentSize := 5, drawingHistory := [], historyStep := -1, images := [] }

/-- The array read `drawingHistory[i]`: `none` is `undefined`. -/
def histAt (h : List String) (i : Int) : Option String :=
  if i < 0 then none else h[i.toNat]?

/-- The value stored by `canvas.width = v`: the attribute reflects an unsigned long
limited to 0..2147483647 with default 300, so a negative `v` stores the default. -/
def reflectWidth (v : Int) : Nat :=
  if v < 0 ∨ 2147483647 < v then 300 else v.toNat

/-- The width `resizeCanvas` gives the canvas: `Math.min(containerWidth - 40, 800)`
as stored by the attribute setter. -/
def canvasWidth (el : CanvasElement) : Nat :=
  reflectWidth (min ((el.containerWidth : Int) - 40) 800)

/-- The height `resizeCanvas` gives the canvas: the width divided by the aspect
ratio 4 / 3, truncated to an integer by the attribute setter. -/
def canvasHeight (el : CanvasElement) : Nat :=
  3 * canvasWidth el / 4

/-- The function `resizeCanvas` (lines 33-52).  Assigning `canvas.width` and
`canvas.height` resets the bitmap and the context; then the context is configured
and the canvas filled with `white`.  A `TypeError` when `canvas` is undefined. -/
def resizeCanvas (s : State) : Except State State :=
  match s.canvas with
  | none => .error s
  | some cv =>
    let bm := Bitmap.fresh (canvasWidth cv.element) (canvasHeight cv.element)
    let ctx0 : Ctx2D :=
      { Ctx2D.default with
        lineCap := "round", lineJoin := "round", strokeStyle := s.currentColor }
    let ctx : Ctx2D := { ctx0.setLineWidth s.currentSize with fillStyle := Color.white }
    .ok { s with canvas := some { cv with bitmap := bm.fillRect ctx, ctx := ctx } }

/-- The function `saveState` (lines 185-191).  `historyStep++` comes first; when the
new cursor is below the length the array is cut to that length (a negative length
raises a `RangeError`); then `canvas.toDataURL()` is pushed (a `TypeError` when
`canvas` is undefined). -/
def saveState (B : Browser) (s : State) : Except State State :=
  let s1 := { s with historyStep := s.historyStep + 1 }
  if s1.historyStep < (s1.drawingHistory.length : Int) then
    if s1.historyStep < 0 then .error s1
    else
      let s2 := { s1 with drawingHistory := s1.drawingHistory.take s1.historyStep.toNat }
      match s2.canvas with
      | none => .error s2
      | some cv => .ok { s2 with drawingHistory := s2.drawingHistory ++ [B.toDataURL cv.bitmap] }
  else
    match s1.canvas with
    | none => .error s1
    | some cv => .ok { s1 with drawingHistory := s1.drawingHistory ++ [B.toDataURL cv.bitmap] }

/-- The function `clearCanvas` (lines 177-183): clear, fill with `white` under the
current compositing mode, set `fillStyle` back to `currentColor`, then `saveState()`. -/
def clearCanvas (B : Browser) (s : State) : Except State State :=
  match s.canvas with
  | none => .error s
  | some cv =>
    let bm1 := cv.bitmap.clearRect
    let ctx1 := { cv.ctx with fillStyle := Color.white }
    let bm2 := bm1.fillRect ctx1
    let ctx2 := { ctx1 with fillStyle := s.currentColor }
    saveState B { s with canvas := some { cv with bitmap := bm2, ctx := ctx2 } }

/-- The function `initializeCanvas` (lines 11-31).  `found` is the result of
`document.getElementById('drawing-canvas')`; without the element the function
returns at once.  `initializeDrawingTools` and `setupCanvasEvents` only register
listeners (the handlers are the operations of `Op` below). -/
def initializeCanvas (B : Browser) (found : Option CanvasElement) (s : State) :
    Except State State :=
  match found with
  | none => .ok { s with canvas := none }
  | some el =>
    let s0 := { s with canvas := some { element := el, bitmap := Bitmap.fresh el.width el.height,
                                        ctx := Ctx2D.default } }
    match resizeCanvas s0 with
    | .error e => .error e
    | .ok s1 =>
      match clearCanvas B s1 with
      | .error e => .error e
      | .ok s2 => saveState B s2

/-- The function `restoreState` (lines 207-214): a new image gets an `onload`
handler and `drawingHistory[historyStep]` as its source. -/
def restoreState (s : State) : State :=
  { s with images := s.images ++ [histAt s.drawingHistory s.historyStep] }

/-- The function `undo` (lines 193-198). -/
def undo (s : State) : State :=
  if s.historyStep > 0 then restoreState { s with historyStep := s.historyStep - 1 } else s

/-- The function `redo` (lines 200-205). -/
def redo (s : State) : State :=
  if s.historyStep < (s.drawingHistory.length : Int) - 1 then
    restoreState { s with historyStep := s.historyStep + 1 }
  else s

/-- The function `startDrawing` (lines 130-138): `isDrawing = true`, then a new path
starting at the pointer. -/
def startDrawing (p : Point) (s : State) : Except State State :=
  let s1 := { s with isDrawing := true }
  match s1.canvas with
  | none => .error s1
  | some cv => .ok { s1 with canvas := some { cv with ctx := { cv.ctx with path := [p] } } }

/-- The function `draw` (lines 140-156): nothing unless `isDrawing`; the pen strokes
under `source-over`, the eraser under `destination-out`, any other tool draws nothing.
The compositing mode stays as the last stroke set it. -/
def draw (B : Browser) (p : Point) (s : State) : Except State State :=
  if !s.isDrawing then .ok s
  else
    match s.canvas with
    | none => .error s
    | some cv =>
      if s.currentTool = "pen" then
        let ctx1 : Ctx2D := { cv.ctx with globalCompositeOperation := CompositeOp.sourceOver,
                                          path := cv.ctx.path ++ [p] }
        let bm1 : Bitmap := { cv.bitmap with pixels := B.stroke ctx1 cv.bitmap }
        .ok { s with canvas := some { cv with bitmap := bm1, ctx := ctx1 } }
      else if s.currentTool = "eraser" then
        let ctx1 : Ctx2D := { cv.ctx with globalCompositeOperation := CompositeOp.destinationOut,
                                          path := cv.ctx.path ++ [p] }
        let bm1 : Bitmap := { cv.bitmap with pixels := B.stroke ctx1 cv.bitmap }
        .ok { s with canvas := some { cv with bitmap := bm1, ctx := ctx1 } }
      else .ok s

/-- The function `stopDrawing` (lines 158-164), the handler of `mouseup`, `mouseout`
and `touchend`: only when `isDrawing`, reset the flag, start a new path, `saveState()`. -/
def stopDrawing (B : Browser) (s : State) : Except State State :=
  if s.isDrawing then
    let s1 := { s with isDrawing := false }
    match s1.canvas with
    | none => .error s1
    | some cv => saveState B { s1 with canvas := some { cv with ctx := { cv.ctx with path := [] } } }
  else .ok s

/-- The click handler of a tool button (lines 57-64): `currentTool` becomes the
button's `data-tool`; `updateCursor` touches `canvas.style` for the two known tools. -/
def selectTool (tool : String) (s : State) : Except State State :=
  let s1 := { s with currentTool := tool }
  if tool = "pen" ∨ tool = "eraser" then
    match s1.canvas with
    | none => .error s1
    | some _ => .ok s1
  else .ok s1

/-- The change handler of the colour picker (lines 70-73). -/
def pickColor (c : Color) (s : State) : Except State State :=
  let s1 := { s with currentColor := c }
  match s1.canvas with
  | none => .error s1
  | some cv => .ok { s1 with canvas := some { cv with ctx := { cv.ctx with strokeStyle := c } } }

/-- The input handler of the brush-size slider (lines 79-83). -/
def pickSize (n : Nat) (s : State) : Except State State :=
  let s1 := { s with currentSize := n }
  match s1.canvas with
  | none => .error s1
  | some cv => .ok { s1 with canvas := some { cv with ctx := cv.ctx.setLineWidth n } }

/-- The `onload` handler installed by `restoreState` (lines 209-212), run for the
pending image number `i`: clear the canvas and draw the image at the origin. -/
def imageOnload (B : Browser) (i : Nat) (s : State) : Except State State :=
  match s.images[i]? with
  | none => .ok s
  | some src =>
    let s1 := { s with images := s.images.eraseIdx i }
    match s1.canvas with
    | none => .error s1
    | some cv =>
      let bm1 := cv.bitmap.clearRect
      let bm2 := { bm1 with pixels := B.drawImage cv.ctx.globalCompositeOperation src bm1 }
      .ok { s1 with canvas := some { cv with bitmap := bm2 } }

/-- What can happen to the module after `DOMContentLoaded`: a call of one of its
functions or the run of one of its handlers. -/
inductive Op where
  | saveState
  | clearCanvas
  | stopDrawing
  | undo
  | redo
  | startDrawing (p : Point)
  | draw (p : Point)
  | selectTool (tool : String)
  | pickColor (c : Color)
  | pickSize (n : Nat)
  | imageOnload (i : Nat)
deriving DecidableEq, Repr

/-- One operation on the module state. -/
def step (B : Browser) (s : State) : Op → Except State State
  | Op.saveState => saveState B s
  | Op.clearCanvas => clearCanvas B s
  | Op.stopDrawing => stopDrawing B s
  | Op.undo => .ok (undo s)
  | Op.redo => .ok (redo s)
  | Op.startDrawing p => startDrawing p s
  | Op.draw p => draw B p s
  | Op.selectTool tool => selectTool tool s
  | Op.pickColor c => pickColor c s
  | Op.pickSize n => pickSize n s
  | Op.imageOnload i => imageOnload B i s

/-- The module state a call leaves behind, whether it returned or raised: an uncaught
exception ends the handler and the page goes on with the variables as they are. -/
def settle : Except State State → State
  | .ok s => s
  | .error s => s

/-- A finite sequence of operations, one after the other. -/
def run (B : Browser) (s : State) (ops : List Op) : State :=
  ops.foldl (fun st op => settle (step B st op)) s

/-- The canvas `isCanvasEmpty` compares with (lines 283-288): a new canvas of the
same size, `fillStyle = 'white'`, filled whole. -/
def blankBitmap (w h : Nat) : Bitmap :=
  (Bitmap.fresh w h).fillRect { Ctx2D.default with fillStyle := Color.white }

/-- The cursor validity property: the history is not empty and the cursor is an
index into it. -/
def CursorValid (s : State) : Prop :=
  s.drawingHistory ≠ [] ∧ 0 ≤ s.historyStep ∧ s.historyStep < (s.drawingHistory.length : Int)

/-- The property every operation keeps once the canvas is set up: the module has its
canvas and the cursor is valid. -/
def Seeded (s : State) : Prop :=
  s.canvas ≠ none ∧ CursorValid s

/-! ## The upload allow-list of `main.js` -/

/-- The fields of a `File` that `handleFileSelect` reads. -/
structure File where
  name : String
  size : Nat
  type : String
deriving DecidableEq, Repr

/-- What `handleFileSelect` does with a file: one `showAlert(message, kind)` and
nothing else, or `reader.readAsDataURL(file)` for the preview. -/
inductive FileOutcome where
  | alert (message : String) (kind : String)
  | readAsDataURL (file : File)
deriving DecidableEq, Repr

/-- The constant `maxSize` of `handleFileSelect`: 16MB. -/
def maxSize : Nat := 16 * 1024 * 1024

/-- The constant `allowedTypes` of `handleFileSelect`. -/
def allowedTypes : List String :=
  ["image/png", "image/jpg", "image/jpeg", "image/gif", "image/webp"]

/-- The function `handleFileSelect` (lines 112-134). -/
def handleFileSelect (file : File) : FileOutcome :=
  if file.size > maxSize then
    FileOutcome.alert "File is too large. Maximum size is 16MB." "error"
  else if !allowedTypes.contains file.type then
    FileOutcome.alert "Invalid file type. Please upload PNG, JPG, JPEG, GIF, or WebP files." "error"
  else
    FileOutcome.readAsDataURL file

/-- The context as `initializeCanvas` leaves it: configured by `resizeCanvas`, with
`fillStyle` set back to `currentColor` by `clearCanvas`. -/
def ctxAfterInit (s : State) : Ctx2D :=
  { ({ Ctx2D.default with
       lineCap := "round", lineJoin := "round",
       strokeStyle := s.currentColor } : Ctx2D).setLineWidth s.currentSize with
    fillStyle := s.currentColor }

/-! ## Committed edits -/

/-- One committed edit, as the page produces it: a direct `saveState()`, a click on
the clear button, or a stroke (the tool is chosen, the pointer goes down at `start`,
moves through `moves` and goes up). -/
inductive Commit where
  | save
  | clear
  | stroke (tool : String) (start : Point) (moves : List Point)
deriving DecidableEq, Repr

/-- The operations a committed edit consists of. -/
def Commit.ops : Commit → List Op
  | Commit.save => [Op.saveState]
  | Commit.clear => [Op.clearCanvas]
  | Commit.stroke tool start moves =>
    Op.selectTool tool :: Op.startDrawing start :: (moves.map Op.draw ++ [Op.stopDrawing])

/-- A sequence of committed edits, one after the other. -/
def runCommits (B : Browser) (s : State) (cs : List Commit) : State :=
  cs.foldl (fun st c => run B st c.ops) s

/-- The module after `DOMContentLoaded` on a page with the canvas element `el`. -/
def afterInit (B : Browser) (el : CanvasElement) : State :=
  settle (initializeCanvas B (some el) State.initial)

/-! ## The canvas listeners -/

/-- The events `setupCanvasEvents` listens to on the canvas (lines 109-119); a pointer
event carries its position. -/
inductive CanvasEvent where
  | mousedown (p : Point)
  | mousemove (p : Point)
  | mouseup
  | mouseout
  | touchstart (p : Point)
  | touchmove (p : Point)
  | touchend
deriving DecidableEq, Repr

/-- The function each listener ends in.  `handleTouch` (lines 166-175) turns a
`touchstart` into a dispatched `mousedown` and a `touchmove` into a dispatched
`mousemove` at the position of the first touch; `touchend` is bound to `stopDrawing`
itself, like `mouseup` and `mouseout`. -/
def CanvasEvent.op : CanvasEvent → Op
  | CanvasEvent.mousedown p => Op.startDrawing p
  | CanvasEvent.mousemove p => Op.draw p
  | CanvasEvent.mouseup => Op.stopDrawing
  | CanvasEvent.mouseout => Op.stopDrawing
  | CanvasEvent.touchstart p => Op.startDrawing p
  | CanvasEvent.touchmove p => Op.draw p
  | CanvasEvent.touchend => Op.stopDrawing

/-- A sequence of canvas events, handled one after the other. -/
def runEvents (B : Browser) (s : State) (es : List CanvasEvent) : State :=
  run B s (es.map CanvasEvent.op)

/-! ## Buttons, timers and the submission of a drawing -/

/-- The children of a button: one text node, or the nodes parsed from markup
assigned through `innerHTML`. -/
inductive Content where
  | text (t : String)
  | html (markup : String)
deriving DecidableEq, Repr

/-- The properties of a button that `addLoadingState` reads or writes. -/
structure Button where
  disabled : Bool
  content : Content
deriving DecidableEq, Repr

/-- The property `button.textContent`.  `textOf` is the browser's HTML parser followed
by the concatenation of the text nodes; a button whose content was set through
`textContent` has that very text. -/
def Button.textContent (textOf : String → String) (b : Button) : String :=
  match b.content with
  | Content.text t => t
  | Content.html markup => textOf markup

/-- The callbacks the two scripts hand to `setTimeout` on the drawing page: the reset
of a button in `addLoadingState` (main.js, lines 171-174) and the redirect after a
successful save (canvas.js, lines 265-267). -/
inductive TimerCallback where
  | resetButton (originalText : String)
  | redirect (href : String)
deriving DecidableEq, Repr

/-- A call `setTimeout(callback, delay)`, the delay in milliseconds. -/
structure Timer where
  callback : TimerCallback
  delay : Nat
deriving DecidableEq, Repr

/-- The markup `addLoadingState` assigns to `button.innerHTML`. -/
def spinnerMarkup : String := "<span class=\"spinner\"></span> Processing..."

/-- The function `addLoadingState` (main.js, lines 165-175): the button as the call
leaves it, and the one timer it sets. -/
def addLoadingState (textOf : String → String) (button : Button) : Button × Timer :=
  let originalText := button.textContent textOf
  ({ button with disabled := true, content := Content.html spinnerMarkup },
   { callback := TimerCallback.resetButton originalText, delay := 10000 })

/-- What a timer callback does to the button when it runs: the reset sets
`disabled = false` and `textContent = originalText`; the redirect leaves the page. -/
def TimerCallback.fire (cb : TimerCallback) (button : Button) : Button :=
  match cb with
  | TimerCallback.resetButton originalText =>
    { button with disabled := false, content := Content.text originalText }
  | TimerCallback.redirect _ => button

/-- The parts of the page `saveDrawing` looks up: the value of the `model-name` input
and the `save-drawing` button (`none` when the element is missing), and whether
`window.ShapeShift3D` is defined (main.js defines it when it is loaded). -/
structure Page where
  modelName : Option String
  saveBtn : Option Button
  shapeShift3D : Bool
deriving DecidableEq, Repr

/-- What `saveDrawing` and its response handlers do to the outside: a call of
`showAlert`, a call of `setTimeout`, the `fetch` of `/draw` with method POST (the body
carries the canvas data and the model name, URI-encoded), a `console.error`. -/
inductive Effect where
  | showAlert (message : String) (kind : String)
  | setTimeout (timer : Timer)
  | fetchPost (url : String) (canvasData : String) (modelName : String)
  | consoleError
deriving DecidableEq, Repr

/-- The module state, the page and the effects a call of `saveDrawing` leaves. -/
structure Submission where
  state : State
  page : Page
  effects : List Effect
deriving DecidableEq, Repr

/-- The function `isCanvasEmpty` (canvas.js, lines 282-291): the encoding of the canvas
compared with the encoding of a new canvas of the same size filled with `white`;
`none` is the `TypeError` on a missing canvas. -/
def isCanvasEmpty (B : Browser) (s : State) : Option Bool :=
  match s.canvas with
  | none => none
  | some cv =>
    some (B.toDataURL cv.bitmap = B.toDataURL (blankBitmap cv.bitmap.width cv.bitmap.height))

/-- The function `saveDrawing` (canvas.js, lines 231-257), up to the call of `fetch`.
The lookup of `model-name` comes first (a `TypeError` without the element), then the
empty-canvas check, then the loading state of the save button, then the POST. -/
def saveDrawing (B : Browser) (textOf : String → String) (page : Page) (s : State) :
    Except Submission Submission :=
  match page.modelName with
  | none => .error { state := s, page := page, effects := [] }
  | some value =>
    let modelName := if value = "" then "Untitled Drawing" else value
    match isCanvasEmpty B s with
    | none => .error { state := s, page := page, effects := [] }
    | some true =>
      if page.shapeShift3D then
        .ok { state := s, page := page,
              effects := [Effect.showAlert "Please draw something before saving." "error"] }
      else .ok { state := s, page := page, effects := [] }
    | some false =>
      match s.canvas with
      | none => .error { state := s, page := page, effects := [] }
      | some cv =>
        let canvasData := B.toDataURL cv.bitmap
        match page.saveBtn with
        | some btn =>
          if page.shapeShift3D then
            .ok { state := s,
                  page := { page with saveBtn := some (addLoadingState textOf btn).1 },
                  effects := [Effect.setTimeout (addLoadingState textOf btn).2,
                              Effect.fetchPost "/draw" canvasData modelName] }
          else
            .ok { state := s, page := page,
                  effects := [Effect.fetchPost "/draw" canvasData modelName] }
        | none =>
          .ok { state := s, page := page,
                effects := [Effect.fetchPost "/draw" canvasData modelName] }

/-- How the request of `saveDrawing` ends: a JSON body with its `success` flag and
`error` text, or a failure (no response, or a body that is not JSON). -/
inductive FetchResult where
  | json (success : Bool) (error : String)
  | failed
deriving DecidableEq, Repr

/-- The handlers `saveDrawing` chains on the request (canvas.js, lines 258-279): the
page as they leave it and their effects. -/
def saveDrawingSettled (page : Page) (result : FetchResult) : Page × List Effect :=
  match result with
  | FetchResult.json true _ =>
    (page,
      (if page.shapeShift3D then
        [Effect.showAlert "Drawing saved and model generated successfully!" "success"]
       else []) ++
      [Effect.setTimeout { callback := TimerCallback.redirect "/models", delay := 2000 }])
  | FetchResult.json false error =>
    (page,
      if page.shapeShift3D then
        [Effect.showAlert ("Error saving drawing: " ++ error) "error"]
      else [])
  | FetchResult.failed =>
    (page,
      Effect.consoleError ::
      (if page.shapeShift3D then
        [Effect.showAlert "Network error occurred while saving." "error"]
       else []))

/-! ## The identifier generator of `main.js` -/

/-- A value returned by `Math.random()`, written as the exact fraction `num / den`
that the floating-point number is. -/
structure Fraction where
  num : Nat
  den : Nat
deriving DecidableEq, Repr

/-- The range of `Math.random()`: at least 0 and below 1. -/
def Fraction.InUnit (q : Fraction) : Prop :=
  q.num < q.den

/-- The call `v.toString(16)` for a non-negative integer: lowercase hexadecimal. -/
def toString16 (v : Nat) : String :=
  String.mk (Nat.toDigits 16 v)

/-- The callback of `generateUUID` (lines 227-231) for the matched character `c`, with
`random` the value `Math.random()` returns.  For a value in the range of
`Math.random()`, `random * 16 | 0` is the integer part of the product, which is exact. -/
def uuidDigit (random : Fraction) (c : Char) : String :=
  let r := random.num * 16 / random.den
  let v := if c = 'x' then r else ((r &&& 0x3) ||| 0x8)
  toString16 v

/-- The template string of `generateUUID`. -/
def uuidTemplate : String := "xxxxxxxx-xxxx-4xxx-yxxx-xxxxxxxxxxxx"

/-- The call `replace(/[xy]/g, callback)` on a list of characters: from left to right,
every `x` and `y` is replaced by what the callback returns, and every run of the
callback takes the next value of `Math.random()`; `n` counts the values taken so far. -/
def replaceXY (random : Nat → Fraction) : List Char → Nat → List Char
  | [], _ => []
  | c :: cs, n =>
    if c = 'x' ∨ c = 'y' then (uuidDigit (random n) c).data ++ replaceXY random cs (n + 1)
    else c :: replaceXY random cs n

/-- The function `generateUUID` (lines 226-232); `random n` is the value the call
number `n` of `Math.random()` returns. -/
def generateUUID (random : Nat → Fraction) : String :=
  String.mk (replaceXY random uuidTemplate.data 0)

/-- The lowercase hexadecimal digits. -/
def hexDigits : List Char :=
  ['0', '1', '2', '3', '4', '5', '6', '7', '8', '9', 'a', 'b', 'c', 'd', 'e', 'f']

/-- The digits a version-4 identifier may carry at index 19. -/
def variantDigits : List Char := ['8', '9', 'a', 'b']

/-- The relation between a character of the template and the character that replaces it. -/
def ReplacedBy (t c : Char) : Prop :=
  if t = 'x' then c ∈ hexDigits else if t = 'y' then c ∈ variantDigits else c = t

/-! ## Sample data for the worked instances -/

/-- A browser for the worked instances: it encodes a bitmap as `white` or `drawn`. -/
def sampleBrowser : Browser :=
  { toDataURL := fun bm =>
      if bm.pixels.all (fun p => p = Color.white.toPixel) then "white" else "drawn",
    stroke := fun _ bm => bm.pixels.map (fun _ => Color.black.toPixel),
    drawImage := fun _ _ bm => bm.pixels }

/-- A canvas element in a container 44 pixels wide: the canvas is 4 by 3. -/
def sampleElement : CanvasElement :=
  { containerWidth := 44, width := 300, height := 150 }

/-- A blank 4 by 3 canvas as initialization leaves it. -/
def sampleCanvas : Canvas :=
  { element := sampleElement, bitmap := blankBitmap 4 3, ctx := ctxAfterInit State.initial }

/-- A state with four snapshots and the cursor on the second. -/
def sampleState : State :=
  { State.initial with
    canvas := some sampleCanvas,
    drawingHistory := ["s0", "s1", "s2", "s3"],
    historyStep := 1 }

/-- A state with three snapshots and the cursor on the last. -/
def sampleThree : State :=
  { State.initial with
    canvas := some sampleCanvas,
    drawingHistory := ["S0", "S1", "S2"],
    historyStep := 2 }

/-- Operations without a commit: undos, a redo and a stroke in progress. -/
def sampleIdleOps : List Op :=
  [Op.undo, Op.startDrawing ⟨1, 1⟩, Op.draw ⟨2, 2⟩, Op.redo, Op.undo]

/-- A stroke with the eraser: the tool is chosen, the pointer goes down, moves and goes up. -/
def eraserStroke : List Op :=
  [Op.selectTool "eraser", Op.startDrawing ⟨1, 1⟩, Op.draw ⟨2, 2⟩, Op.stopDrawing]

/-- A PNG file of a given size. -/
def samplePng (size : Nat) : File :=
  { name := "sketch.png", size := size, type := "image/png" }

/-- The sample state with the cursor on the last of its four snapshots. -/
def sampleTip : State :=
  { sampleState with historyStep := 3 }

/-- The moves of a sample stroke, one by mouse and one by touch. -/
def sampleStroke : List CanvasEvent :=
  [CanvasEvent.mousemove ⟨2, 2⟩, CanvasEvent.touchmove ⟨3, 2⟩]

/-- A save button as a page may have it, with markup for an icon and a label. -/
def sampleButton : Button :=
  { disabled := false, content := Content.html "<i class=\"icon\"></i> Save Drawing" }

/-- A parser for the worked instances: it knows the two markups used there. -/
def sampleTextOf (markup : String) : String :=
  if markup = "<i class=\"icon\"></i> Save Drawing" then " Save Drawing"
  else if markup = spinnerMarkup then " Processing..."
  else markup

/-- A drawing page with main.js loaded, a model name typed in and the save button. -/
def samplePage : Page :=
  { modelName := some "chair", saveBtn := some sampleButton, shapeShift3D := true }

/-- The sample state with strokes on the canvas: every pixel is black. -/
def sampleDrawnState : State :=
  { sampleState with
    canvas := some { sampleCanvas with
      bitmap := { width := 4, height := 3,
                  pixels := List.replicate 12 Color.black.toPixel } } }

/-- A stream of values for `Math.random()`: 1/32, 3/32, ..., 31/32, and again. -/
def sampleRandom (n : Nat) : Fraction := ⟨2 * (n % 16) + 1, 32⟩

/-! ## Shared lemmas on the history operations -/

/-- With a canvas and a valid cursor, `saveState` returns, and its result is the
history up to the cursor followed by the encoding of the current bitmap. -/
theorem saveState_of_valid (B : Browser) (s : State) (cv : Canvas)
    (hcv : s.canvas = some cv) (h0 : 0 ≤ s.historyStep)
    (h1 : s.historyStep < (s.drawingHistory.length : Int)) :
    saveState B s = .ok { s with
      historyStep := s.historyStep + 1,
      drawingHistory := s.drawingHistory.take (s.historyStep.toNat + 1) ++ [B.toDataURL cv.bitmap] } := by
  have hn : (s.historyStep + 1).toNat = s.historyStep.toNat + 1 := by omega
  unfold saveState
  by_cases hlt : s.historyStep + 1 < (s.drawingHistory.length : Int)
  · have hneg : ¬ (s.historyStep + 1 < 0) := by omega
    simp [hlt, hneg, hcv, hn]
  · have hlen : s.historyStep.toNat + 1 = s.drawingHistory.length := by omega
    simp [hlt, hcv, hlen]

/-- From the empty history with cursor -1 and a canvas, `saveState` returns the
one-element history with cursor 0. -/
theorem saveState_of_empty (B : Browser) (s : State) (cv : Canvas)
    (hcv : s.canvas = some cv) (hh : s.drawingHistory = []) (hs : s.historyStep = -1) :
    saveState B s = .ok { s with historyStep := 0, drawingHistory := [B.toDataURL cv.bitmap] } := by
  unfold saveState
  simp [hcv, hh, hs]

/-- The length of the history after a commit from a valid cursor. -/
theorem length_take_succ_append (h : List String) (c : Int) (x : String)
    (h0 : 0 ≤ c) (h1 : c < (h.length : Int)) :
    ((h.take (c.toNat + 1) ++ [x]).length : Int) = c + 2 := by
  have : min (c.toNat + 1) h.length = c.toNat + 1 := by omega
  simp [List.length_take, this]
  omega

/-- A commit keeps the module seeded: it returns, the cursor moves up by one and
sits on the last index. -/
theorem Seeded.saveState (B : Browser) (s : State) (hs : Seeded s) :
    ∃ s2, ShapeShift3D.saveState B s = .ok s2 ∧ Seeded s2 ∧
      s2.historyStep = s.historyStep + 1 ∧
      s2.historyStep = (s2.drawingHistory.length : Int) - 1 ∧
      s2.isDrawing = s.isDrawing ∧
      s2.canvas = s.canvas ∧
      s2.images = s.images ∧
      (∀ cv, s.canvas = some cv → s2.drawingHistory =
        s.drawingHistory.take (s.historyStep.toNat + 1) ++ [B.toDataURL cv.bitmap]) := by
  obtain ⟨hc, _, h0, h1⟩ := hs
  obtain ⟨cv, hcv⟩ := Option.ne_none_iff_exists'.mp hc
  refine ⟨_, saveState_of_valid B s cv hcv h0 h1, ⟨?_, ?_, ?_, ?_⟩, rfl, ?_, rfl, rfl, rfl, ?_⟩
  · simp [hcv]
  · simp
  · show (0 : Int) ≤ s.historyStep + 1
    omega
  · show s.historyStep + 1 < _
    rw [length_take_succ_append _ _ _ h0 h1]
    omega
  · show s.historyStep + 1 = _ - 1
    rw [length_take_succ_append _ _ _ h0 h1]
    omega
  · intro cv2 h2
    rw [hcv] at h2
    cases h2
    rfl

/-- Changing the canvas and the drawing flag keeps the module seeded. -/
theorem Seeded.withCanvas (s : State) (cv : Canvas) (b : Bool) (hs : Seeded s) :
    Seeded { s with canvas := some cv, isDrawing := b } :=
  ⟨by simp, hs.2⟩

/-- The operation `undo` keeps the module seeded. -/
theorem Seeded.undo (s : State) (hs : Seeded s) : Seeded (ShapeShift3D.undo s) := by
  obtain ⟨hc, hne, h0, h1⟩ := hs
  unfold ShapeShift3D.undo restoreState
  split
  · refine ⟨hc, hne, ?_, ?_⟩
    · show (0 : Int) ≤ s.historyStep - 1
      omega
    · show s.historyStep - 1 < (s.drawingHistory.length : Int)
      omega
  · exact ⟨hc, hne, h0, h1⟩

/-- The operation `redo` keeps the module seeded. -/
theorem Seeded.redo (s : State) (hs : Seeded s) : Seeded (ShapeShift3D.redo s) := by
  obtain ⟨hc, hne, h0, h1⟩ := hs
  unfold ShapeShift3D.redo restoreState
  split
  · rename_i hlt
    refine ⟨hc, hne, ?_, ?_⟩
    · show (0 : Int) ≤ s.historyStep + 1
      omega
    · show s.historyStep + 1 < (s.drawingHistory.length : Int)
      omega
  · exact ⟨hc, hne, h0, h1⟩

/-- Every operation keeps the module seeded, whether it returns or raises. -/
theorem Seeded.step (B : Browser) (s : State) (op : Op) (hs : Seeded s) :
    Seeded (settle (ShapeShift3D.step B s op)) := by
  obtain ⟨cv, hcv⟩ := Option.ne_none_iff_exists'.mp hs.1
  cases op with
  | saveState =>
    obtain ⟨s2, h2, hs2, _⟩ := Seeded.saveState B s hs
    simp [ShapeShift3D.step, h2, settle, hs2]
  | clearCanvas =>
    obtain ⟨s2, h2, hs2, _⟩ := Seeded.saveState B _
      (Seeded.withCanvas s
        { cv with bitmap := cv.bitmap.clearRect.fillRect { cv.ctx with fillStyle := Color.white },
                  ctx := { cv.ctx with fillStyle := s.currentColor } } s.isDrawing hs)
    simp only [ShapeShift3D.step, clearCanvas, hcv]
    rw [h2]
    exact hs2
  | stopDrawing =>
    simp only [ShapeShift3D.step, stopDrawing]
    by_cases hd : s.isDrawing = true
    · obtain ⟨s2, h2, hs2, _⟩ := Seeded.saveState B _
        (Seeded.withCanvas s { cv with ctx := { cv.ctx with path := [] } } false hs)
      simp only [hd, if_true, hcv]
      rw [h2]
      exact hs2
    · simp [hd, settle, hs]
  | undo => exact Seeded.undo s hs
  | redo => exact Seeded.redo s hs
  | startDrawing p =>
    simp only [ShapeShift3D.step, startDrawing, hcv, settle]
    exact Seeded.withCanvas s _ true hs
  | draw p =>
    simp only [ShapeShift3D.step, draw]
    by_cases hd : s.isDrawing = true
    · simp only [hd, Bool.not_true, hcv]
      by_cases hp : s.currentTool = "pen"
      · simp only [hp, if_true, settle]
        exact ⟨by simp, hs.2⟩
      · by_cases he : s.currentTool = "eraser"
        · simp only [he, if_true, settle]
          exact ⟨by simp, hs.2⟩
        · simp [hp, he, settle, hs]
    · simp [hd, settle, hs]
  | selectTool tool =>
    simp only [ShapeShift3D.step, selectTool, hcv]
    split <;> exact ⟨by simp [settle, hcv], hs.2⟩
  | pickColor c =>
    simp only [ShapeShift3D.step, pickColor, hcv, settle]
    exact ⟨by simp, hs.2⟩
  | pickSize n =>
    simp only [ShapeShift3D.step, pickSize, hcv, settle]
    exact ⟨by simp, hs.2⟩
  | imageOnload i =>
    simp only [ShapeShift3D.step, imageOnload]
    cases hi : s.images[i]? with
    | none => simpa [settle] using hs
    | some src =>
      simp only [hcv, settle]
      exact ⟨by simp, hs.2⟩

/-- Every finite sequence of operations keeps the module seeded. -/
theorem Seeded.run (B : Browser) (ops : List Op) (s : State) (hs : Seeded s) :
    Seeded (ShapeShift3D.run B s ops) := by
  induction ops generalizing s with
  | nil => exact hs
  | cons op rest ih => exact ih _ (Seeded.step B s op hs)

/-- The result of `initializeCanvas` on a page with the canvas, from the module as
loaded: the blank canvas committed twice, the cursor on the second commit. -/
theorem initializeCanvas_initial (B : Browser) (el : CanvasElement) :
    initializeCanvas B (some el) State.initial = .ok
      { State.initial with
        canvas := some { element := el,
                         bitmap := blankBitmap (canvasWidth el) (canvasHeight el),
                         ctx := ctxAfterInit State.initial },
        drawingHistory := [B.toDataURL (blankBitmap (canvasWidth el) (canvasHeight el)),
                           B.toDataURL (blankBitmap (canvasWidth el) (canvasHeight el))],
        historyStep := 1 } := by
  rfl

/-- Without the canvas element `initializeCanvas` returns at its guard: nothing is
committed and the module stays as loaded. -/
theorem initializeCanvas_without_canvas (B : Browser) :
    initializeCanvas B none State.initial = .ok State.initial := by
  rfl

/-- After `initializeCanvas` on a page with the canvas the module is seeded. -/
theorem seeded_initializeCanvas (B : Browser) (el : CanvasElement) :
    Seeded (settle (initializeCanvas B (some el) State.initial)) := by
  rw [initializeCanvas_initial]
  refine ⟨?_, ?_, ?_, ?_⟩ <;> simp [settle]

/-- A run over two sequences in a row. -/
theorem run_append (B : Browser) (s : State) (a b : List Op) :
    run B s (a ++ b) = run B (run B s a) b := by
  simp [run, List.foldl_append]

/-- Drawing moves keep the module seeded, the drawing flag up and the history, the
cursor and the pending images as they are. -/
theorem run_draws (B : Browser) (ms : List Point) (s : State) (hs : Seeded s)
    (hd : s.isDrawing = true) :
    Seeded (run B s (ms.map Op.draw)) ∧ (run B s (ms.map Op.draw)).isDrawing = true ∧
      (run B s (ms.map Op.draw)).drawingHistory = s.drawingHistory ∧
      (run B s (ms.map Op.draw)).historyStep = s.historyStep ∧
      (run B s (ms.map Op.draw)).images = s.images := by
  induction ms generalizing s with
  | nil => exact ⟨hs, hd, rfl, rfl, rfl⟩
  | cons m rest ih =>
    obtain ⟨cv, hcv⟩ := Option.ne_none_iff_exists'.mp hs.1
    have hstep : (settle (step B s (Op.draw m))).isDrawing = true ∧
        (settle (step B s (Op.draw m))).drawingHistory = s.drawingHistory ∧
        (settle (step B s (Op.draw m))).historyStep = s.historyStep ∧
        (settle (step B s (Op.draw m))).images = s.images := by
      simp only [step, draw, hd, Bool.not_true, hcv]
      by_cases hp : s.currentTool = "pen"
      · simp [hp, settle, hd]
      · by_cases he : s.currentTool = "eraser"
        · simp [he, settle, hd]
        · simp [hp, he, settle, hd]
    obtain ⟨h1, h2, h3, h4, h5⟩ := ih _ (Seeded.step B s (Op.draw m) hs) hstep.1
    refine ⟨h1, h2, ?_, ?_, ?_⟩
    · exact h3.trans hstep.2.1
    · exact h4.trans hstep.2.2.1
    · exact h5.trans hstep.2.2.2

/-- A committed edit keeps the module seeded, raises the cursor by one and leaves it
on the last index; the history is the old one up to the old cursor followed by the
encoding of the canvas as the edit leaves it; no restore is started. -/
theorem run_commit (B : Browser) (c : Commit) (s : State) (hs : Seeded s) :
    Seeded (run B s c.ops) ∧ (run B s c.ops).historyStep = s.historyStep + 1 ∧
      (run B s c.ops).historyStep = ((run B s c.ops).drawingHistory.length : Int) - 1 ∧
      (run B s c.ops).images = s.images ∧
      ∃ cv2, (run B s c.ops).canvas = some cv2 ∧
        (run B s c.ops).drawingHistory =
          s.drawingHistory.take (s.historyStep.toNat + 1) ++ [B.toDataURL cv2.bitmap] := by
  obtain ⟨cv, hcv⟩ := Option.ne_none_iff_exists'.mp hs.1
  cases c with
  | save =>
    obtain ⟨s2, h2, hs2, hstep, hlast, _, hcan, himg, hhist⟩ := Seeded.saveState B s hs
    simp only [Commit.ops, run, List.foldl, step, h2, settle]
    exact ⟨hs2, hstep, hlast, himg, cv, hcan.trans hcv, hhist cv hcv⟩
  | clear =>
    obtain ⟨s2, h2, hs2, hstep, hlast, _, hcan, himg, hhist⟩ := Seeded.saveState B _
      (Seeded.withCanvas s
        { cv with bitmap := cv.bitmap.clearRect.fillRect { cv.ctx with fillStyle := Color.white },
                  ctx := { cv.ctx with fillStyle := s.currentColor } } s.isDrawing hs)
    simp only [Commit.ops, run, List.foldl, step, clearCanvas, hcv]
    rw [h2]
    exact ⟨hs2, hstep, hlast, himg, _, hcan, hhist _ rfl⟩
  | stroke tool start moves =>
    have hsel : Seeded (settle (step B s (Op.selectTool tool))) ∧
        (settle (step B s (Op.selectTool tool))).drawingHistory = s.drawingHistory ∧
        (settle (step B s (Op.selectTool tool))).historyStep = s.historyStep ∧
        (settle (step B s (Op.selectTool tool))).images = s.images := by
      refine ⟨Seeded.step B s _ hs, ?_, ?_, ?_⟩ <;>
        (simp only [step, selectTool, hcv]; split <;> rfl)
    obtain ⟨hs1, hh1, hc1, hi1⟩ := hsel
    generalize hs1def : settle (step B s (Op.selectTool tool)) = s1 at hs1 hh1 hc1 hi1
    obtain ⟨cv1, hcv1⟩ := Option.ne_none_iff_exists'.mp hs1.1
    have hstart : Seeded (settle (step B s1 (Op.startDrawing start))) ∧
        (settle (step B s1 (Op.startDrawing start))).isDrawing = true ∧
        (settle (step B s1 (Op.startDrawing start))).drawingHistory = s1.drawingHistory ∧
        (settle (step B s1 (Op.startDrawing start))).historyStep = s1.historyStep ∧
        (settle (step B s1 (Op.startDrawing start))).images = s1.images := by
      refine ⟨Seeded.step B s1 _ hs1, ?_, ?_, ?_, ?_⟩ <;>
        simp [step, startDrawing, hcv1, settle]
    obtain ⟨hs2, hd2, hh2, hc2, hi2⟩ := hstart
    generalize hs2def : settle (step B s1 (Op.startDrawing start)) = s2 at hs2 hd2 hh2 hc2 hi2
    obtain ⟨hs3, hd3, hh3, hc3, hi3⟩ := run_draws B moves s2 hs2 hd2
    generalize hs3def : run B s2 (moves.map Op.draw) = s3 at hs3 hd3 hh3 hc3 hi3
    obtain ⟨cv3, hcv3⟩ := Option.ne_none_iff_exists'.mp hs3.1
    obtain ⟨s4, h4, hs4, hstep4, hlast4, _, hcan4, himg4, hhist4⟩ := Seeded.saveState B _
      (Seeded.withCanvas s3 { cv3 with ctx := { cv3.ctx with path := [] } } false hs3)
    have hstop : settle (step B s3 Op.stopDrawing) = s4 := by
      simp only [step, stopDrawing, hd3, if_true, hcv3]
      rw [h4]
      rfl
    have hrun : run B s (Commit.stroke tool start moves).ops = s4 := by
      have hexp : run B s (Op.selectTool tool :: Op.startDrawing start ::
          (moves.map Op.draw ++ [Op.stopDrawing])) =
          settle (step B (run B (settle (step B (settle (step B s (Op.selectTool tool)))
            (Op.startDrawing start))) (moves.map Op.draw)) Op.stopDrawing) := by
        simp [run, List.foldl_append]
      show run B s (Op.selectTool tool :: Op.startDrawing start ::
        (moves.map Op.draw ++ [Op.stopDrawing])) = s4
      rw [hexp, hs1def, hs2def, hs3def, hstop]
    rw [hrun]
    have hhs : s3.drawingHistory = s.drawingHistory := by rw [hh3, hh2, hh1]
    have hcs : s3.historyStep = s.historyStep := by rw [hc3, hc2, hc1]
    refine ⟨hs4, ?_, hlast4, ?_, _, hcan4, ?_⟩
    · rw [hstep4]
      show s3.historyStep + 1 = _
      omega
    · rw [himg4]
      show s3.images = _
      rw [hi3, hi2, hi1]
    · rw [hhist4 _ rfl]
      show s3.drawingHistory.take (s3.historyStep.toNat + 1) ++ _ = _
      rw [hhs, hcs]

/-- A sequence of committed edits from a seeded state with the cursor on the last
index: the cursor rises by the number of edits and ends on the last index. -/
theorem runCommits_tip (B : Browser) (cs : List Commit) (s : State) (hs : Seeded s)
    (htip : s.historyStep = (s.drawingHistory.length : Int) - 1) :
    Seeded (runCommits B s cs) ∧
      (runCommits B s cs).historyStep = s.historyStep + (cs.length : Int) ∧
      (runCommits B s cs).historyStep =
        ((runCommits B s cs).drawingHistory.length : Int) - 1 := by
  induction cs generalizing s with
  | nil => exact ⟨hs, by simp [runCommits], htip⟩
  | cons c rest ih =>
    obtain ⟨h1, h2, h3, _⟩ := run_commit B c s hs
    obtain ⟨k1, k2, k3⟩ := ih (run B s c.ops) h1 h3
    refine ⟨k1, ?_, k3⟩
    show (runCommits B (run B s c.ops) rest).historyStep = _
    rw [k2, h2, List.length_cons]
    push_cast
    omega

/-- The cursor and the history after `n` undos, when the cursor is at least `n`. -/
theorem undo_iterate (n : Nat) (s : State) (hn : (n : Int) ≤ s.historyStep) :
    (undo^[n] s).historyStep = s.historyStep - (n : Int) ∧
      (undo^[n] s).drawingHistory = s.drawingHistory := by
  induction n with
  | zero => simp
  | succ k ih =>
    obtain ⟨h1, h2⟩ := ih (by push_cast at hn; omega)
    rw [Function.iterate_succ_apply']
    have hpos : (undo^[k] s).historyStep > 0 := by rw [h1]; push_cast at hn; omega
    refine ⟨?_, ?_⟩
    · simp only [undo, hpos, if_true, restoreState]
      rw [h1]; push_cast; omega
    · simp only [undo, hpos, if_true, restoreState]
      exact h2

/-- The cursor and the history after `n` redos, when `n` snapshots lie beyond the cursor. -/
theorem redo_iterate (n : Nat) (s : State)
    (hn : s.historyStep + (n : Int) ≤ (s.drawingHistory.length : Int) - 1) :
    (redo^[n] s).historyStep = s.historyStep + (n : Int) ∧
      (redo^[n] s).drawingHistory = s.drawingHistory := by
  induction n with
  | zero => simp
  | succ k ih =>
    obtain ⟨h1, h2⟩ := ih (by push_cast at hn; omega)
    rw [Function.iterate_succ_apply']
    have hlt : (redo^[k] s).historyStep < ((redo^[k] s).drawingHistory.length : Int) - 1 := by
      rw [h1, h2]; push_cast at hn; omega
    refine ⟨?_, ?_⟩
    · simp only [redo, hlt, if_true, restoreState]
      rw [h1]; push_cast; omega
    · simp only [redo, hlt, if_true, restoreState]
      exact h2

/-- A read at an index of the history yields one of its snapshots. -/
theorem histAt_mem (h : List String) (i : Int) (h0 : 0 ≤ i) (h1 : i < (h.length : Int)) :
    ∃ y ∈ h, histAt h i = some y := by
  have hneg : ¬ (i < 0) := by omega
  have hget : i.toNat < h.length := by omega
  exact ⟨h[i.toNat], List.getElem_mem hget, by
    simp [histAt, hneg, List.getElem?_eq_getElem hget]⟩

/-- Undos and redos from a seeded state leave the history alone, and every image
source they hand over is a snapshot of the history. -/
theorem run_undo_redo (B : Browser) (ops : List Op) (s : State) (hs : Seeded s)
    (hops : ∀ o ∈ ops, o = Op.undo ∨ o = Op.redo) :
    (run B s ops).drawingHistory = s.drawingHistory ∧
      ∀ x ∈ (run B s ops).images, x ∈ s.images ∨ ∃ y ∈ s.drawingHistory, x = some y := by
  induction ops generalizing s with
  | nil => exact ⟨rfl, fun x hx => Or.inl hx⟩
  | cons op rest ih =>
    have hrest : ∀ o ∈ rest, o = Op.undo ∨ o = Op.redo :=
      fun o ho => hops o (List.mem_cons_of_mem _ ho)
    obtain ⟨_, _, h0, h1⟩ := id hs
    have key : (settle (step B s op)).drawingHistory = s.drawingHistory ∧
        ∀ x ∈ (settle (step B s op)).images,
          x ∈ s.images ∨ ∃ y ∈ s.drawingHistory, x = some y := by
      rcases hops op (List.mem_cons_self _ _) with h | h
      · subst h
        simp only [step, settle, undo, restoreState]
        split
        · refine ⟨rfl, fun x hx => ?_⟩
          rcases List.mem_append.mp hx with hx | hx
          · exact Or.inl hx
          · obtain ⟨y, hy, hy2⟩ := histAt_mem s.drawingHistory (s.historyStep - 1)
              (by omega) (by omega)
            rw [List.mem_singleton] at hx
            exact Or.inr ⟨y, hy, hx.trans hy2⟩
        · exact ⟨rfl, fun x hx => Or.inl hx⟩
      · subst h
        simp only [step, settle, redo, restoreState]
        split
        · refine ⟨rfl, fun x hx => ?_⟩
          rcases List.mem_append.mp hx with hx | hx
          · exact Or.inl hx
          · obtain ⟨y, hy, hy2⟩ := histAt_mem s.drawingHistory (s.historyStep + 1)
              (by omega) (by omega)
            rw [List.mem_singleton] at hx
            exact Or.inr ⟨y, hy, hx.trans hy2⟩
        · exact ⟨rfl, fun x hx => Or.inl hx⟩
    obtain ⟨k1, k2⟩ := ih _ (Seeded.step B s op hs) hrest
    refine ⟨k1.trans key.1, fun x hx => ?_⟩
    rcases k2 x hx with hx | ⟨y, hy, hxy⟩
    · exact key.2 x hx
    · exact Or.inr ⟨y, by rw [← key.1]; exact hy, hxy⟩

/-- The blank canvas is white all over. -/
theorem blankBitmap_eq (w h : Nat) :
    blankBitmap w h =
      { width := w, height := h, pixels := List.replicate (w * h) Color.white.toPixel } := by
  simp [blankBitmap, Bitmap.fresh, Bitmap.fillRect, Ctx2D.default, compositeOpaque]

/-- An operation other than a commit leaves the history as it is. -/
theorem step_keeps_history (B : Browser) (s : State) (op : Op)
    (hop : op ≠ Op.saveState ∧ op ≠ Op.clearCanvas ∧ op ≠ Op.stopDrawing) :
    (settle (step B s op)).drawingHistory = s.drawingHistory := by
  obtain ⟨h1, h2, h3⟩ := hop
  cases op with
  | saveState => exact absurd rfl h1
  | clearCanvas => exact absurd rfl h2
  | stopDrawing => exact absurd rfl h3
  | undo => simp only [step, settle, undo, restoreState]; split <;> rfl
  | redo => simp only [step, settle, redo, restoreState]; split <;> rfl
  | startDrawing p => simp only [step, startDrawing]; split <;> rfl
  | draw p =>
    simp only [step, draw]
    split
    · rfl
    · split
      · rfl
      · split
        · rfl
        · split <;> rfl
  | selectTool tool =>
    simp only [step, selectTool]
    split
    · split <;> rfl
    · rfl
  | pickColor c => simp only [step, pickColor]; split <;> rfl
  | pickSize n => simp only [step, pickSize]; split <;> rfl
  | imageOnload i =>
    simp only [step, imageOnload]
    split
    · rfl
    · split <;> rfl

/-- A sequence of operations without a commit leaves the history as it is. -/
theorem run_keeps_history (B : Browser) (ops : List Op) (s : State)
    (hops : ∀ o ∈ ops, o ≠ Op.saveState ∧ o ≠ Op.clearCanvas ∧ o ≠ Op.stopDrawing) :
    (run B s ops).drawingHistory = s.drawingHistory := by
  induction ops generalizing s with
  | nil => rfl
  | cons op rest ih =>
    have h1 := step_keeps_history B s op (hops op (List.mem_cons_self _ _))
    have h2 := ih (settle (step B s op)) (fun o ho => hops o (List.mem_cons_of_mem _ ho))
    exact h2.trans h1

/-- The function `clearCanvas` as a commit: with a canvas and a valid cursor `c` it
returns; the history is the old snapshots `0..c` followed by the encoding of the
canvas after `clearRect` and `fillRect`, with the cursor on it; that canvas is the
blank white one when the compositing mode is `source-over`; one undo afterwards
moves the cursor back to `c` and hands over the snapshot at `c`. -/
theorem clearCanvas_commit (B : Browser) (s : State) (cv : Canvas)
    (hcv : s.canvas = some cv) (h0 : 0 ≤ s.historyStep)
    (h1 : s.historyStep < (s.drawingHistory.length : Int)) :
    ∃ s2 cv2, clearCanvas B s = .ok s2 ∧ s2.canvas = some cv2 ∧
      cv2.bitmap = cv.bitmap.clearRect.fillRect { cv.ctx with fillStyle := Color.white } ∧
      (cv.ctx.globalCompositeOperation = CompositeOp.sourceOver →
        cv2.bitmap = blankBitmap cv.bitmap.width cv.bitmap.height) ∧
      s2.drawingHistory =
        s.drawingHistory.take (s.historyStep.toNat + 1) ++ [B.toDataURL cv2.bitmap] ∧
      s2.historyStep = s.historyStep + 1 ∧
      s2.historyStep = (s2.drawingHistory.length : Int) - 1 ∧
      (undo s2).historyStep = s.historyStep ∧
      (undo s2).images = s2.images ++ [histAt s.drawingHistory s.historyStep] := by
  have hlen := length_take_succ_append s.drawingHistory s.historyStep
    (B.toDataURL (cv.bitmap.clearRect.fillRect { cv.ctx with fillStyle := Color.white })) h0 h1
  have hsave := saveState_of_valid B
    { s with canvas := some { cv with
        bitmap := cv.bitmap.clearRect.fillRect { cv.ctx with fillStyle := Color.white },
        ctx := { cv.ctx with fillStyle := s.currentColor } } } _ rfl h0 h1
  simp only [clearCanvas, hcv]
  rw [hsave]
  refine ⟨_, _, rfl, rfl, rfl, ?_, rfl, rfl, ?_, ?_, ?_⟩
  · intro hop
    simp [blankBitmap, Bitmap.fresh, Bitmap.fillRect, Bitmap.clearRect, Ctx2D.default, hop]
  · show s.historyStep + 1 = _ - 1
    rw [hlen]; omega
  · have hpos : s.historyStep + 1 > 0 := by omega
    simp [undo, restoreState, hpos]
  · have hpos : s.historyStep + 1 > 0 := by omega
    have hneg : ¬ (s.historyStep < 0) := by omega
    have hmin : min (s.historyStep.toNat + 1) s.drawingHistory.length = s.historyStep.toNat + 1 := by
      omega
    simp only [undo, restoreState, hpos, if_true, add_sub_cancel_right, histAt, hneg, if_false]
    rw [List.getElem?_append_left (by simp [List.length_take, hmin])]
    rw [List.getElem?_take]
    simp

/-- Operations that are all `draw` calls are the `draw` calls of a list of points. -/
theorem draws_eq_map (ops : List Op) (h : ∀ o ∈ ops, ∃ p, o = Op.draw p) :
    ∃ ps : List Point, ops = ps.map Op.draw := by
  induction ops with
  | nil => exact ⟨[], rfl⟩
  | cons o rest ih =>
    obtain ⟨p, hp⟩ := h o (List.mem_cons_self _ _)
    obtain ⟨ps, hps⟩ := ih (fun x hx => h x (List.mem_cons_of_mem _ hx))
    exact ⟨p :: ps, by simp [hp, hps]⟩

/-- With the drawing flag down, any number of `stopDrawing` calls change nothing. -/
theorem run_stops_idle (B : Browser) (ops : List Op) (s : State)
    (h : ∀ o ∈ ops, o = Op.stopDrawing) (hd : s.isDrawing = false) :
    run B s ops = s := by
  induction ops with
  | nil => rfl
  | cons o rest ih =>
    have ho := h o (List.mem_cons_self _ _)
    subst ho
    have hstep : settle (step B s Op.stopDrawing) = s := by
      simp [step, stopDrawing, hd, settle]
    show run B (settle (step B s Op.stopDrawing)) rest = s
    rw [hstep]
    exact ih (fun x hx => h x (List.mem_cons_of_mem _ hx))

/-- The function `stopDrawing` with the drawing flag up, a canvas and a valid cursor:
it returns, lowers the flag and commits the current canvas once. -/
theorem stopDrawing_commits (B : Browser) (s : State) (cv : Canvas)
    (hcv : s.canvas = some cv) (h0 : 0 ≤ s.historyStep)
    (h1 : s.historyStep < (s.drawingHistory.length : Int)) (hd : s.isDrawing = true) :
    stopDrawing B s = .ok { s with
      canvas := some { cv with ctx := { cv.ctx with path := [] } },
      isDrawing := false,
      historyStep := s.historyStep + 1,
      drawingHistory := s.drawingHistory.take (s.historyStep.toNat + 1) ++
        [B.toDataURL cv.bitmap] } := by
  have hsave := saveState_of_valid B
    { s with isDrawing := false,
             canvas := some { cv with ctx := { cv.ctx with path := [] } } }
    { cv with ctx := { cv.ctx with path := [] } } rfl h0 h1
  simp only [stopDrawing, hd, if_true, hcv]
  exact hsave

/-- Taking as many entries as the cursor at the tip plus one takes the whole history. -/
theorem take_tip (h : List String) (c : Int) (htip : c = (h.length : Int) - 1) :
    h.take (c.toNat + 1) = h := by
  apply List.take_of_length_le
  omega

/-- A stroke seen as canvas events: the pointer goes down, moves, and one or more
stop events follow.  From a seeded state the stroke commits the canvas exactly once,
at the first stop event. -/
theorem run_stroke_events (B : Browser) (s : State) (down : CanvasEvent)
    (moves stops : List CanvasEvent) (hs : Seeded s)
    (hdown : ∃ p, down.op = Op.startDrawing p)
    (hmoves : ∀ e ∈ moves, ∃ p, e.op = Op.draw p)
    (hstops : ∀ e ∈ stops, e.op = Op.stopDrawing) (hne : stops ≠ []) :
    ∃ cv, (runEvents B s (down :: (moves ++ stops))).canvas = some cv ∧
      (runEvents B s (down :: (moves ++ stops))).drawingHistory =
        s.drawingHistory.take (s.historyStep.toNat + 1) ++ [B.toDataURL cv.bitmap] ∧
      (runEvents B s (down :: (moves ++ stops))).historyStep = s.historyStep + 1 ∧
      (runEvents B s (down :: (moves ++ stops))).isDrawing = false := by
  obtain ⟨p, hp⟩ := hdown
  obtain ⟨cv, hcv⟩ := Option.ne_none_iff_exists'.mp hs.1
  have hstart : Seeded (settle (step B s (Op.startDrawing p))) ∧
      (settle (step B s (Op.startDrawing p))).isDrawing = true ∧
      (settle (step B s (Op.startDrawing p))).drawingHistory = s.drawingHistory ∧
      (settle (step B s (Op.startDrawing p))).historyStep = s.historyStep := by
    refine ⟨Seeded.step B s _ hs, ?_, ?_, ?_⟩ <;> simp [step, startDrawing, hcv, settle]
  obtain ⟨hs1, hd1, hh1, hc1⟩ := hstart
  generalize hs1def : settle (step B s (Op.startDrawing p)) = s1 at hs1 hd1 hh1 hc1
  obtain ⟨ps, hps⟩ := draws_eq_map (moves.map CanvasEvent.op) (by
    intro o ho
    obtain ⟨e, he, heo⟩ := List.mem_map.mp ho
    obtain ⟨q, hq⟩ := hmoves e he
    exact ⟨q, heo ▸ hq⟩)
  obtain ⟨hs2, hd2, hh2, hc2, _⟩ := run_draws B ps s1 hs1 hd1
  generalize hs2def : run B s1 (ps.map Op.draw) = s2 at hs2 hd2 hh2 hc2
  obtain ⟨cv2, hcv2⟩ := Option.ne_none_iff_exists'.mp hs2.1
  obtain ⟨_, _, h0, h1⟩ := id hs2
  have hstop := stopDrawing_commits B s2 cv2 hcv2 h0 h1 hd2
  cases stops with
  | nil => exact absurd rfl hne
  | cons e rest =>
    have he : e.op = Op.stopDrawing := hstops e (List.mem_cons_self _ _)
    have hrest : ∀ o ∈ rest.map CanvasEvent.op, o = Op.stopDrawing := by
      intro o ho
      obtain ⟨x, hx, hxo⟩ := List.mem_map.mp ho
      exact hxo ▸ hstops x (List.mem_cons_of_mem _ hx)
    have hexp : runEvents B s (down :: (moves ++ e :: rest)) =
        run B (settle (step B (run B (settle (step B s (Op.startDrawing p)))
          (ps.map Op.draw)) Op.stopDrawing)) (rest.map CanvasEvent.op) := by
      simp [runEvents, run, List.foldl_append, hp, he, hps]
    rw [hexp, hs1def, hs2def]
    simp only [step, hstop, settle]
    rw [run_stops_idle B _ _ hrest rfl]
    refine ⟨_, rfl, ?_, ?_, rfl⟩
    · show s2.drawingHistory.take (s2.historyStep.toNat + 1) ++ _ = _
      rw [hh2, hc2, hh1, hc1]
    · show s2.historyStep + 1 = _
      rw [hc2, hc1]

/-! ## Lemmas on the submission of a drawing -/

/-- Without `window.ShapeShift3D` the empty-canvas branch of `saveDrawing` returns
at its guard without an alert. -/
theorem saveDrawing_empty_without_main (B : Browser) (textOf : String → String)
    (page : Page) (s : State) (value : String)
    (hname : page.modelName = some value) (hmain : page.shapeShift3D = false)
    (hempty : isCanvasEmpty B s = some true) :
    saveDrawing B textOf page s = .ok { state := s, page := page, effects := [] } := by
  simp [saveDrawing, hname, hempty, hmain]

/-- Without the `model-name` input `saveDrawing` raises at its first line, before the
empty-canvas check. -/
theorem saveDrawing_without_name (B : Browser) (textOf : String → String)
    (page : Page) (s : State) (hname : page.modelName = none) :
    saveDrawing B textOf page s = .error { state := s, page := page, effects := [] } := by
  simp [saveDrawing, hname]

/-! ## Lemmas on the identifier generator -/

/-- A number below 16 is written as one lowercase hexadecimal digit. -/
theorem toDigits16_lt (v : Nat) (hv : v < 16) :
    ∃ c, Nat.toDigits 16 v = [c] ∧ c ∈ hexDigits := by
  interval_cases v <;> exact ⟨_, rfl, by decide⟩

/-- The value `r & 0x3 | 0x8` is written as one of the digits 8, 9, a, b. -/
theorem toDigits16_variant (r : Nat) (hr : r < 16) :
    ∃ c, Nat.toDigits 16 ((r &&& 0x3) ||| 0x8) = [c] ∧ c ∈ variantDigits := by
  interval_cases r <;> exact ⟨_, rfl, by decide⟩

/-- The integer part of sixteen times a value of `Math.random()` is below 16. -/
theorem floor16_lt (q : Fraction) (h : q.InUnit) : q.num * 16 / q.den < 16 := by
  unfold Fraction.InUnit at h
  rw [Nat.div_lt_iff_lt_mul (by omega)]
  omega

/-- The sample stream stays in the range of `Math.random()`. -/
theorem sampleRandom_range (n : Nat) : (sampleRandom n).InUnit := by
  unfold sampleRandom Fraction.InUnit
  show 2 * (n % 16) + 1 < 32
  omega

/-- The callback returns one character, as the template character asks for. -/
theorem uuidDigit_spec (q : Fraction) (h : q.InUnit) (t : Char) (ht : t = 'x' ∨ t = 'y') :
    ∃ c, (uuidDigit q t).data = [c] ∧ ReplacedBy t c := by
  have hr := floor16_lt q h
  rcases ht with ht | ht
  · subst ht
    obtain ⟨c, hc, hmem⟩ := toDigits16_lt _ hr
    exact ⟨c, by simp [uuidDigit, toString16, hc], by simpa [ReplacedBy] using hmem⟩
  · subst ht
    obtain ⟨c, hc, hmem⟩ := toDigits16_variant _ hr
    refine ⟨c, ?_, ?_⟩
    · have hne : ¬ ('y' = 'x') := by decide
      simp only [uuidDigit, toString16, hne, if_false]
      exact hc
    · have hne : ¬ ('y' = 'x') := by decide
      simp only [ReplacedBy, hne, if_false, if_true]
      exact hmem

/-- The replacement keeps the length and replaces character by character. -/
theorem replaceXY_spec (random : Nat → Fraction) (hrand : ∀ n, (random n).InUnit)
    (tpl : List Char) (n : Nat) :
    (replaceXY random tpl n).length = tpl.length ∧
      ∀ (i : Nat) (t : Char), tpl[i]? = some t →
        ∃ c, (replaceXY random tpl n)[i]? = some c ∧ ReplacedBy t c := by
  induction tpl generalizing n with
  | nil => exact ⟨rfl, fun i t h => by simp at h⟩
  | cons a rest ih =>
    obtain ⟨ihlen, ihget⟩ := ih (n + 1)
    obtain ⟨ihlen2, ihget2⟩ := ih n
    by_cases ha : a = 'x' ∨ a = 'y'
    · obtain ⟨c, hc, hrel⟩ := uuidDigit_spec (random n) (hrand n) a ha
      have hrep : replaceXY random (a :: rest) n = c :: replaceXY random rest (n + 1) := by
        simp [replaceXY, ha, hc]
      rw [hrep]
      refine ⟨by simp [ihlen], fun i t h => ?_⟩
      cases i with
      | zero =>
        simp only [List.getElem?_cons_zero, Option.some.injEq] at h
        exact ⟨c, by simp, h ▸ hrel⟩
      | succ j =>
        simp only [List.getElem?_cons_succ] at h ⊢
        exact ihget j t h
    · have hrep : replaceXY random (a :: rest) n = a :: replaceXY random rest n := by
        simp [replaceXY, ha]
      rw [hrep]
      refine ⟨by simp [ihlen2], fun i t h => ?_⟩
      cases i with
      | zero =>
        simp only [List.getElem?_cons_zero, Option.some.injEq] at h
        refine ⟨a, by simp, ?_⟩
        subst h
        have h1 : ¬ (a = 'x') := fun h => ha (Or.inl h)
        have h2 : ¬ (a = 'y') := fun h => ha (Or.inr h)
        simp [ReplacedBy, h1, h2]
      | succ j =>
        simp only [List.getElem?_cons_succ] at h ⊢
        exact ihget2 j t h

/-- What replaces an `x` is a hexadecimal digit. -/
theorem replacedBy_x (c : Char) (h : ReplacedBy 'x' c) : c ∈ hexDigits := by
  unfold ReplacedBy at h
  rw [if_pos rfl] at h
  exact h

/-- What replaces the `y` is one of 8, 9, a, b. -/
theorem replacedBy_y (c : Char) (h : ReplacedBy 'y' c) : c ∈ variantDigits := by
  unfold ReplacedBy at h
  rw [if_neg (by decide), if_pos rfl] at h
  exact h

/-- A hyphen stays. -/
theorem replacedBy_hyphen (c : Char) (h : ReplacedBy '-' c) : c = '-' := by
  unfold ReplacedBy at h
  rw [if_neg (by decide), if_neg (by decide)] at h
  exact h

/-- The `4` stays. -/
theorem replacedBy_four (c : Char) (h : ReplacedBy '4' c) : c = '4' := by
  unfold ReplacedBy at h
  rw [if_neg (by decide), if_neg (by decide)] at h
  exact h

/-! ## The claims -/

/-- C1. Cursor validity invariant: after `initializeCanvas` on a page with the drawing
canvas, from the module as loaded (`drawingHistory = []`, `historyStep = -1`), and
after any finite sequence of operations (saveState, clearCanvas, stopDrawing, undo,
redo, and also the drawing and tool handlers and the image `onload` handlers), the
history is non-empty and `0 <= historyStep < drawingHistory.length`. -/
theorem cursor_valid_invariant (B : Browser) (el : CanvasElement) (ops : List Op) :
    (run B (settle (initializeCanvas B (some el) State.initial)) ops).drawingHistory ≠ [] ∧
    0 ≤ (run B (settle (initializeCanvas B (some el) State.initial)) ops).historyStep ∧
    (run B (settle (initializeCanvas B (some el) State.initial)) ops).historyStep <
      ((run B (settle (initializeCanvas B (some el) State.initial)) ops).drawingHistory.length : Int) :=
  (Seeded.run B ops _ (seeded_initializeCanvas B el)).2

/-- C2. Commit truncates then appends: with a canvas, history `h` and cursor `c`,
`0 <= c < h.length`, `saveState` returns; nothing but the history and the cursor
changes; the new history is `h[0..c]` followed by the encoding of the current bitmap;
the cursor is `c + 1`, the last index, and holds the new snapshot; the entries at
`0..c` are unchanged and there is no entry beyond `c + 1`. -/
theorem saveState_truncates_then_appends (B : Browser) (s : State) (cv : Canvas)
    (hcv : s.canvas = some cv) (h0 : 0 ≤ s.historyStep)
    (h1 : s.historyStep < (s.drawingHistory.length : Int)) :
    ∃ s2, saveState B s = .ok s2 ∧
      s2 = { s with
             historyStep := s.historyStep + 1,
             drawingHistory := s.drawingHistory.take (s.historyStep.toNat + 1) ++
               [B.toDataURL cv.bitmap] } ∧
      s2.historyStep = s.historyStep + 1 ∧
      s2.historyStep = (s2.drawingHistory.length : Int) - 1 ∧
      histAt s2.drawingHistory s2.historyStep = some (B.toDataURL cv.bitmap) ∧
      (∀ i : Int, 0 ≤ i → i ≤ s.historyStep →
        histAt s2.drawingHistory i = histAt s.drawingHistory i) ∧
      (∀ i : Int, s.historyStep + 1 < i → histAt s2.drawingHistory i = none) := by
  have hlen := length_take_succ_append s.drawingHistory s.historyStep (B.toDataURL cv.bitmap) h0 h1
  have hmin : min (s.historyStep.toNat + 1) s.drawingHistory.length = s.historyStep.toNat + 1 := by
    omega
  refine ⟨_, saveState_of_valid B s cv hcv h0 h1, rfl, rfl, ?_, ?_, ?_, ?_⟩
  · show s.historyStep + 1 = _ - 1
    rw [hlen]; omega
  · show histAt _ (s.historyStep + 1) = _
    have hneg : ¬ (s.historyStep + 1 < 0) := by omega
    have hn : (s.historyStep + 1).toNat = s.historyStep.toNat + 1 := by omega
    simp only [histAt, hneg, if_false, hn]
    rw [List.getElem?_append_right (by simp [List.length_take, hmin])]
    simp [List.length_take, hmin]
  · intro i hi0 hi1
    have hneg : ¬ (i < 0) := by omega
    simp only [histAt, hneg, if_false]
    rw [List.getElem?_append_left (by simp [List.length_take, hmin]; omega)]
    rw [List.getElem?_take]
    simp
    omega
  · intro i hi
    have hneg : ¬ (i < 0) := by omega
    simp only [histAt, hneg, if_false]
    apply List.getElem?_eq_none
    have := hlen
    simp only [List.length_append, List.length_take, hmin, List.length_singleton] at this ⊢
    omega

/-- C2, a worked instance: four snapshots, cursor on the second. -/
theorem saveState_truncates_then_appends_witness :
    (sampleState.canvas = some sampleCanvas ∧ 0 ≤ sampleState.historyStep ∧
      sampleState.historyStep < (sampleState.drawingHistory.length : Int)) ∧
    ∃ s2, saveState sampleBrowser sampleState = .ok s2 ∧
      s2 = { sampleState with
             historyStep := sampleState.historyStep + 1,
             drawingHistory := sampleState.drawingHistory.take
               (sampleState.historyStep.toNat + 1) ++
               [sampleBrowser.toDataURL sampleCanvas.bitmap] } ∧
      s2.historyStep = sampleState.historyStep + 1 ∧
      s2.historyStep = (s2.drawingHistory.length : Int) - 1 ∧
      histAt s2.drawingHistory s2.historyStep =
        some (sampleBrowser.toDataURL sampleCanvas.bitmap) ∧
      (∀ i : Int, 0 ≤ i → i ≤ sampleState.historyStep →
        histAt s2.drawingHistory i = histAt sampleState.drawingHistory i) ∧
      (∀ i : Int, sampleState.historyStep + 1 < i → histAt s2.drawingHistory i = none) :=
  ⟨⟨rfl, by decide, by decide⟩,
   saveState_truncates_then_appends sampleBrowser sampleState sampleCanvas rfl
     (by decide) (by decide)⟩

/-- C3. Undo contract: when `historyStep > 0`, `undo` lowers the cursor by exactly
one, leaves the history alone and hands `drawingHistory` at the new cursor to a new
image as its source (an actual snapshot when the cursor was an index of the history);
when `historyStep` is 0, `undo` changes nothing and starts no restore, and so does any
number of repetitions. -/
theorem undo_contract (s : State) :
    (s.historyStep > 0 →
      undo s = { s with
                 historyStep := s.historyStep - 1,
                 images := s.images ++ [histAt s.drawingHistory (s.historyStep - 1)] } ∧
      (undo s).historyStep = s.historyStep - 1 ∧
      (undo s).drawingHistory = s.drawingHistory ∧
      (undo s).images = s.images ++ [histAt (undo s).drawingHistory (undo s).historyStep] ∧
      (s.historyStep < (s.drawingHistory.length : Int) →
        ∃ snap, histAt (undo s).drawingHistory (undo s).historyStep = some snap)) ∧
    (s.historyStep = 0 → undo s = s ∧ ∀ n : Nat, undo^[n] s = s) := by
  constructor
  · intro hpos
    have hu : undo s = { s with
                 historyStep := s.historyStep - 1,
                 images := s.images ++ [histAt s.drawingHistory (s.historyStep - 1)] } := by
      simp [undo, restoreState, hpos]
    refine ⟨hu, ?_, ?_, ?_, ?_⟩
    · rw [hu]
    · rw [hu]
    · rw [hu]
    · intro hlt
      rw [hu]
      have hneg : ¬ (s.historyStep - 1 < 0) := by omega
      have hget : (s.historyStep - 1).toNat < s.drawingHistory.length := by omega
      exact ⟨s.drawingHistory[(s.historyStep - 1).toNat], by
        simp [histAt, hneg, List.getElem?_eq_getElem hget]⟩
  · intro h0
    have hu : undo s = s := by simp [undo, h0]
    exact ⟨hu, fun n => Function.iterate_fixed hu n⟩

/-- C3, worked instances: an undo from the cursor 1 and an undo from the cursor 0. -/
theorem undo_contract_witness :
    (undo sampleState = { sampleState with historyStep := 0, images := [some "s0"] }) ∧
    (undo { sampleState with historyStep := 0 } = { sampleState with historyStep := 0 } ∧
      ∀ n : Nat, undo^[n] { sampleState with historyStep := 0 } =
        { sampleState with historyStep := 0 }) :=
  ⟨((undo_contract sampleState).1 (by decide)).1,
   (undo_contract { sampleState with historyStep := 0 }).2 rfl⟩

/-- C4. Redo contract: when `historyStep < drawingHistory.length - 1`, `redo` raises the
cursor by exactly one, leaves the history alone and hands `drawingHistory` at the new
cursor to a new image as its source (an actual snapshot when the new cursor is not
negative); when `historyStep` is the last index, `redo` changes nothing and starts no
restore, and so does any number of repetitions. -/
theorem redo_contract (s : State) :
    (s.historyStep < (s.drawingHistory.length : Int) - 1 →
      redo s = { s with
                 historyStep := s.historyStep + 1,
                 images := s.images ++ [histAt s.drawingHistory (s.historyStep + 1)] } ∧
      (redo s).historyStep = s.historyStep + 1 ∧
      (redo s).drawingHistory = s.drawingHistory ∧
      (redo s).images = s.images ++ [histAt (redo s).drawingHistory (redo s).historyStep] ∧
      (-1 ≤ s.historyStep →
        ∃ snap, histAt (redo s).drawingHistory (redo s).historyStep = some snap)) ∧
    (s.historyStep = (s.drawingHistory.length : Int) - 1 →
      redo s = s ∧ ∀ n : Nat, redo^[n] s = s) := by
  constructor
  · intro hlt
    have hr : redo s = { s with
                 historyStep := s.historyStep + 1,
                 images := s.images ++ [histAt s.drawingHistory (s.historyStep + 1)] } := by
      simp [redo, restoreState, hlt]
    refine ⟨hr, ?_, ?_, ?_, ?_⟩
    · rw [hr]
    · rw [hr]
    · rw [hr]
    · intro hge
      rw [hr]
      have hneg : ¬ (s.historyStep + 1 < 0) := by omega
      have hget : (s.historyStep + 1).toNat < s.drawingHistory.length := by omega
      exact ⟨s.drawingHistory[(s.historyStep + 1).toNat], by
        simp [histAt, hneg, List.getElem?_eq_getElem hget]⟩
  · intro hlast
    have hr : redo s = s := by simp [redo, hlast]
    exact ⟨hr, fun n => Function.iterate_fixed hr n⟩

/-- C4, worked instances: a redo from the cursor 1 of 4 and a redo from the last index. -/
theorem redo_contract_witness :
    (redo sampleState = { sampleState with historyStep := 2, images := [some "s2"] }) ∧
    (redo { sampleState with historyStep := 3 } = { sampleState with historyStep := 3 } ∧
      ∀ n : Nat, redo^[n] { sampleState with historyStep := 3 } =
        { sampleState with historyStep := 3 }) :=
  ⟨((redo_contract sampleState).1 (by decide)).1,
   (redo_contract { sampleState with historyStep := 3 }).2 rfl⟩

/-- C5. Undo/redo round trip: after the history has been seeded by `initializeCanvas`
and after any sequence of N committed edits (direct saves, clears, strokes), N undos
lower the cursor by N, and N redos after them bring the cursor back to the last index,
with the history identical to what it was before the undos and the same snapshot at
the cursor. -/
theorem undo_redo_round_trip (B : Browser) (el : CanvasElement) (cs : List Commit) :
    (undo^[cs.length] (runCommits B (afterInit B el) cs)).historyStep =
      (runCommits B (afterInit B el) cs).historyStep - (cs.length : Int) ∧
    (redo^[cs.length] (undo^[cs.length] (runCommits B (afterInit B el) cs))).historyStep =
      ((redo^[cs.length] (undo^[cs.length]
        (runCommits B (afterInit B el) cs))).drawingHistory.length : Int) - 1 ∧
    (redo^[cs.length] (undo^[cs.length] (runCommits B (afterInit B el) cs))).drawingHistory =
      (runCommits B (afterInit B el) cs).drawingHistory ∧
    (redo^[cs.length] (undo^[cs.length] (runCommits B (afterInit B el) cs))).historyStep =
      (runCommits B (afterInit B el) cs).historyStep ∧
    (∃ snap,
      histAt (runCommits B (afterInit B el) cs).drawingHistory
        (runCommits B (afterInit B el) cs).historyStep = some snap ∧
      histAt (redo^[cs.length] (undo^[cs.length]
          (runCommits B (afterInit B el) cs))).drawingHistory
        (redo^[cs.length] (undo^[cs.length]
          (runCommits B (afterInit B el) cs))).historyStep = some snap) := by
  have hseed : Seeded (afterInit B el) := seeded_initializeCanvas B el
  have htip0 : (afterInit B el).historyStep =
      ((afterInit B el).drawingHistory.length : Int) - 1 := by
    simp [afterInit, initializeCanvas_initial, settle]
  have hstep0 : (afterInit B el).historyStep = 1 := by
    simp [afterInit, initializeCanvas_initial, settle]
  obtain ⟨hs, hstep, htip⟩ := runCommits_tip B cs (afterInit B el) hseed htip0
  generalize runCommits B (afterInit B el) cs = s at hs hstep htip
  obtain ⟨hu1, hu2⟩ := undo_iterate cs.length s (by rw [hstep, hstep0]; omega)
  obtain ⟨hr1, hr2⟩ := redo_iterate cs.length (undo^[cs.length] s) (by rw [hu1, hu2]; omega)
  have hcur : (redo^[cs.length] (undo^[cs.length] s)).historyStep = s.historyStep := by
    rw [hr1, hu1]; omega
  have hhist : (redo^[cs.length] (undo^[cs.length] s)).drawingHistory = s.drawingHistory := by
    rw [hr2, hu2]
  refine ⟨hu1, ?_, hhist, hcur, ?_⟩
  · rw [hcur, hhist]; exact htip
  · obtain ⟨_, _, h0, h1⟩ := hs
    have hneg : ¬ (s.historyStep < 0) := by omega
    have hget : s.historyStep.toNat < s.drawingHistory.length := by omega
    refine ⟨s.drawingHistory[s.historyStep.toNat], ?_, ?_⟩
    · simp [histAt, hneg, List.getElem?_eq_getElem hget]
    · rw [hcur, hhist]
      simp [histAt, hneg, List.getElem?_eq_getElem hget]

/-- C6. A commit after undo discards the redo branch.  First part: from any history
`[S0, S1, S2]` with the cursor on `S2`, `undo` moves the cursor to `S1` and hands `S1`
over; whatever happens to the canvas before the next commit, `saveState` of a canvas
encoded as `S3` leaves exactly `[S0, S1, S3]` with the cursor on `S3`; a `redo` then
changes nothing; `S2`, when it is a snapshot other than `S0`, `S1` and `S3`, is at no
index of the history, and no sequence of undos and redos changes the history or hands
over anything but `S0`, `S1` and `S3`.  Second part, the scenario on the page: after
the blank seed, an edit A, an undo (which hands over the blank snapshot) and an edit
B, `redo` changes nothing, the history holds the blank seed and the snapshot of B
only, and the snapshot at the cursor is the one of B. -/
theorem commit_after_undo_discards_redo (B : Browser) :
    (∀ (s t : State) (cv : Canvas) (S0 S1 S2 : String),
      s.drawingHistory = [S0, S1, S2] → s.historyStep = 2 →
      t.drawingHistory = (undo s).drawingHistory → t.historyStep = (undo s).historyStep →
      t.canvas = some cv →
      (undo s).historyStep = 1 ∧
      (undo s).drawingHistory = [S0, S1, S2] ∧
      (undo s).images = s.images ++ [some S1] ∧
      ∃ u, saveState B t = .ok u ∧
        u.drawingHistory = [S0, S1, B.toDataURL cv.bitmap] ∧
        u.historyStep = 2 ∧
        histAt u.drawingHistory u.historyStep = some (B.toDataURL cv.bitmap) ∧
        redo u = u ∧
        (S2 ≠ S0 → S2 ≠ S1 → S2 ≠ B.toDataURL cv.bitmap → S2 ∉ u.drawingHistory) ∧
        (∀ ops : List Op, (∀ o ∈ ops, o = Op.undo ∨ o = Op.redo) →
          (run B u ops).drawingHistory = [S0, S1, B.toDataURL cv.bitmap] ∧
          ∀ x ∈ (run B u ops).images,
            x ∈ u.images ∨ x = some S0 ∨ x = some S1 ∨ x = some (B.toDataURL cv.bitmap))) ∧
    (∀ (el : CanvasElement) (strokeA strokeB : Commit),
      (undo (run B (afterInit B el) strokeA.ops)).images =
        [some (B.toDataURL (blankBitmap (canvasWidth el) (canvasHeight el)))] ∧
      redo (run B (undo (run B (afterInit B el) strokeA.ops)) strokeB.ops) =
        run B (undo (run B (afterInit B el) strokeA.ops)) strokeB.ops ∧
      ∃ cvB, (run B (undo (run B (afterInit B el) strokeA.ops)) strokeB.ops).canvas = some cvB ∧
        (run B (undo (run B (afterInit B el) strokeA.ops)) strokeB.ops).drawingHistory =
          [B.toDataURL (blankBitmap (canvasWidth el) (canvasHeight el)),
           B.toDataURL (blankBitmap (canvasWidth el) (canvasHeight el)),
           B.toDataURL cvB.bitmap] ∧
        histAt (run B (undo (run B (afterInit B el) strokeA.ops)) strokeB.ops).drawingHistory
          (run B (undo (run B (afterInit B el) strokeA.ops)) strokeB.ops).historyStep =
          some (B.toDataURL cvB.bitmap)) := by
  constructor
  · intro s t cv S0 S1 S2 hh hc hth htc htcv
    have hu : undo s = { s with historyStep := 1, images := s.images ++ [some S1] } := by
      simp [undo, restoreState, hc, hh, histAt]
    have htc1 : t.historyStep = 1 := by rw [htc, hu]
    have hth1 : t.drawingHistory = [S0, S1, S2] := by rw [hth, hu]; exact hh
    have hsave := saveState_of_valid B t cv htcv (by rw [htc1]; decide)
      (by rw [htc1, hth1]; simp)
    rw [htc1, hth1] at hsave
    have hts : Seeded { t with
        historyStep := 2,
        drawingHistory := [S0, S1, B.toDataURL cv.bitmap] } :=
      ⟨by simp [htcv], by simp, by simp, by simp⟩
    refine ⟨by rw [hu], by rw [hu]; exact hh, by rw [hu], _, hsave, rfl, rfl, rfl, ?_, ?_, ?_⟩
    · simp [redo]
    · intro h0 h1 h3
      simp [h0, h1, h3]
    · intro ops hops
      obtain ⟨k1, k2⟩ := run_undo_redo B ops _ hts hops
      refine ⟨k1, fun x hx => ?_⟩
      rcases k2 x hx with hx | ⟨y, hy, hxy⟩
      · exact Or.inl hx
      · right
        simp only [List.mem_cons, List.mem_singleton, List.not_mem_nil, or_false] at hy
        rcases hy with hy | hy | hy <;> simp [hxy, hy]
  · intro el strokeA strokeB
    have hinit : afterInit B el = _ := congrArg settle (initializeCanvas_initial B el)
    obtain ⟨hsA, hcA, _, hiA, cvA, _, hhA⟩ :=
      run_commit B strokeA (afterInit B el) (seeded_initializeCanvas B el)
    generalize run B (afterInit B el) strokeA.ops = sA at hsA hcA hiA hhA
    rw [hinit] at hcA hiA hhA
    simp only [settle] at hcA hiA hhA
    have hcA2 : sA.historyStep = 2 := by rw [hcA]; rfl
    have hhA2 : sA.drawingHistory =
        [B.toDataURL (blankBitmap (canvasWidth el) (canvasHeight el)),
         B.toDataURL (blankBitmap (canvasWidth el) (canvasHeight el)),
         B.toDataURL cvA.bitmap] := by rw [hhA]; rfl
    have hiA2 : sA.images = [] := by rw [hiA]; rfl
    have hu : undo sA = { sA with historyStep := 1, images :=
        [some (B.toDataURL (blankBitmap (canvasWidth el) (canvasHeight el)))] } := by
      simp [undo, restoreState, hcA2, hhA2, hiA2, histAt]
    obtain ⟨hsB, hcB, hlB, _, cvB, hcvB, hhB⟩ := run_commit B strokeB (undo sA) (Seeded.undo sA hsA)
    generalize run B (undo sA) strokeB.ops = sB at hsB hcB hlB hcvB hhB
    rw [hu] at hcB hhB
    simp only [hhA2] at hhB
    have hcB2 : sB.historyStep = 2 := by rw [hcB]; rfl
    have hhB2 : sB.drawingHistory =
        [B.toDataURL (blankBitmap (canvasWidth el) (canvasHeight el)),
         B.toDataURL (blankBitmap (canvasWidth el) (canvasHeight el)),
         B.toDataURL cvB.bitmap] := by rw [hhB]; rfl
    refine ⟨by rw [hu], ?_, cvB, hcvB, hhB2, ?_⟩
    · simp [redo, hcB2, hhB2]
    · rw [hhB2, hcB2]; rfl

/-- C6, a worked instance: the history `S0, S1, S2`, an undo and a commit of a white
canvas. -/
theorem commit_after_undo_discards_redo_witness :
    (sampleThree.drawingHistory = ["S0", "S1", "S2"] ∧ sampleThree.historyStep = 2 ∧
      (undo sampleThree).canvas = some sampleCanvas) ∧
    ((undo sampleThree).historyStep = 1 ∧
      ∃ u, saveState sampleBrowser (undo sampleThree) = .ok u ∧
        u.drawingHistory = ["S0", "S1", "white"] ∧ redo u = u ∧ "S2" ∉ u.drawingHistory) :=
  ⟨⟨rfl, rfl, rfl⟩,
   match (commit_after_undo_discards_redo sampleBrowser).1 sampleThree (undo sampleThree)
     sampleCanvas "S0" "S1" "S2" rfl rfl rfl rfl rfl with
   | ⟨h1, _, _, u, hu, hd, _, _, hr, hnot, _⟩ =>
     ⟨h1, u, hu, hd, hr, hnot (by decide) (by decide) (by decide)⟩⟩

/-- C7. Seeding, as the code does it: from the module as loaded, on a page with the
drawing canvas, `clearCanvas` inside `initializeCanvas` already commits the blank canvas
(one snapshot, cursor 0), and the `saveState()` that follows commits it a second time.
`initializeCanvas` therefore leaves two blank snapshots with the cursor at index 1, and
an undo issued right after it is not a no-op: it moves the cursor to 0 and starts a
restore of the blank snapshot. -/
theorem initializeCanvas_seeds_twice (B : Browser) (el : CanvasElement) :
    ∃ s1 s2 s,
      resizeCanvas { State.initial with
        canvas := some { element := el, bitmap := Bitmap.fresh el.width el.height,
                         ctx := Ctx2D.default } } = .ok s1 ∧
      clearCanvas B s1 = .ok s2 ∧
      s2.drawingHistory = [B.toDataURL (blankBitmap (canvasWidth el) (canvasHeight el))] ∧
      s2.historyStep = 0 ∧
      saveState B s2 = .ok s ∧
      initializeCanvas B (some el) State.initial = .ok s ∧
      s.drawingHistory = [B.toDataURL (blankBitmap (canvasWidth el) (canvasHeight el)),
                          B.toDataURL (blankBitmap (canvasWidth el) (canvasHeight el))] ∧
      s.historyStep = 1 ∧
      undo s ≠ s ∧
      (undo s).historyStep = 0 ∧
      (undo s).images = [some (B.toDataURL (blankBitmap (canvasWidth el) (canvasHeight el)))] := by
  refine ⟨_, _, _, rfl, rfl, rfl, rfl, rfl, rfl, rfl, rfl, ?_, rfl, rfl⟩
  intro h
  have hstep : (0 : Int) = 1 := congrArg State.historyStep h
  omega

/-- C8. Current snapshot after initialization: `initializeCanvas` on a page with the
drawing canvas returns with an all-white canvas, the very canvas `isCanvasEmpty`
compares with, and the snapshot at the cursor is its encoding; the snapshot at the
cursor stays that encoding through every sequence of operations without a commit. -/
theorem current_after_init_is_blank (B : Browser) (el : CanvasElement) :
    (∃ s cv, initializeCanvas B (some el) State.initial = .ok s ∧
      s.canvas = some cv ∧
      cv.bitmap = { width := canvasWidth el, height := canvasHeight el,
                    pixels := List.replicate (canvasWidth el * canvasHeight el)
                      Color.white.toPixel } ∧
      cv.bitmap = blankBitmap (canvasWidth el) (canvasHeight el) ∧
      histAt s.drawingHistory s.historyStep = some (B.toDataURL cv.bitmap)) ∧
    (∀ ops : List Op,
      (∀ o ∈ ops, o ≠ Op.saveState ∧ o ≠ Op.clearCanvas ∧ o ≠ Op.stopDrawing) →
      histAt (run B (afterInit B el) ops).drawingHistory
        (run B (afterInit B el) ops).historyStep =
        some (B.toDataURL (blankBitmap (canvasWidth el) (canvasHeight el)))) := by
  constructor
  · exact ⟨_, _, initializeCanvas_initial B el, rfl, blankBitmap_eq _ _, rfl, rfl⟩
  · intro ops hops
    have hh := run_keeps_history B ops (afterInit B el) hops
    obtain ⟨_, _, h0, h1⟩ := Seeded.run B ops (afterInit B el) (seeded_initializeCanvas B el)
    have hinit : (afterInit B el).drawingHistory =
        [B.toDataURL (blankBitmap (canvasWidth el) (canvasHeight el)),
         B.toDataURL (blankBitmap (canvasWidth el) (canvasHeight el))] := rfl
    rw [hh, hinit] at h1 ⊢
    generalize (run B (afterInit B el) ops).historyStep = c at h0 h1
    simp only [List.length_cons, List.length_nil] at h1
    have hc : c = 0 ∨ c = 1 := by omega
    rcases hc with hc | hc <;> subst hc <;> rfl

/-- C8, a worked instance: undo, a stroke in progress, redo and undo after initialization. -/
theorem current_after_init_is_blank_witness :
    (∀ o ∈ sampleIdleOps, o ≠ Op.saveState ∧ o ≠ Op.clearCanvas ∧ o ≠ Op.stopDrawing) ∧
    histAt (run sampleBrowser (afterInit sampleBrowser sampleElement) sampleIdleOps).drawingHistory
      (run sampleBrowser (afterInit sampleBrowser sampleElement) sampleIdleOps).historyStep =
      some "white" :=
  ⟨by decide,
   (current_after_init_is_blank sampleBrowser sampleElement).2 sampleIdleOps (by decide)⟩

/-- C9. Clear after an eraser stroke, as the code does it: after initialization on
a 4 by 3 canvas and one stroke with the eraser, the compositing mode is still
`destination-out` when `clearCanvas` runs, so its white `fillRect` paints nothing: the
canvas is left fully transparent, not blank white, and the snapshot committed at the
cursor is the encoding of that transparent canvas. -/
theorem clearCanvas_after_eraser (B : Browser) :
    ∃ s2 cv2,
      clearCanvas B (run B (afterInit B sampleElement) eraserStroke) = .ok s2 ∧
      s2.canvas = some cv2 ∧
      cv2.ctx.globalCompositeOperation = CompositeOp.destinationOut ∧
      cv2.bitmap = { width := 4, height := 3,
                     pixels := List.replicate 12 Pixel.transparent } ∧
      cv2.bitmap ≠ blankBitmap 4 3 ∧
      histAt s2.drawingHistory s2.historyStep = some (B.toDataURL cv2.bitmap) := by
  refine ⟨_, _, rfl, rfl, rfl, rfl, ?_, rfl⟩
  intro h
  have h2 : ({ width := 4, height := 3, pixels := List.replicate 12 Pixel.transparent } : Bitmap) =
      blankBitmap 4 3 := h
  revert h2
  decide

/-- C10. Upload allow-list: `handleFileSelect` starts reading the file exactly when
`file.size <= 16 * 1024 * 1024` and `file.type` is one of the five image types; in
every other case it shows one alert of kind `error` and does nothing else; the file
read is the file given; an oversized file gets the size message whatever its type;
a file of exactly 16777216 bytes of an allowed type is accepted. -/
theorem handleFileSelect_allow_list (file : File) :
    (handleFileSelect file = FileOutcome.readAsDataURL file ↔
      (file.size ≤ 16 * 1024 * 1024 ∧
        file.type ∈ ["image/png", "image/jpg", "image/jpeg", "image/gif", "image/webp"])) ∧
    (¬ (file.size ≤ 16 * 1024 * 1024 ∧
        file.type ∈ ["image/png", "image/jpg", "image/jpeg", "image/gif", "image/webp"]) →
      ∃ message, handleFileSelect file = FileOutcome.alert message "error") ∧
    (∀ f, handleFileSelect file = FileOutcome.readAsDataURL f → f = file) ∧
    (file.size > 16 * 1024 * 1024 →
      handleFileSelect file =
        FileOutcome.alert "File is too large. Maximum size is 16MB." "error") ∧
    (file.size ≤ 16 * 1024 * 1024 →
      file.type ∉ ["image/png", "image/jpg", "image/jpeg", "image/gif", "image/webp"] →
      handleFileSelect file =
        FileOutcome.alert
          "Invalid file type. Please upload PNG, JPG, JPEG, GIF, or WebP files." "error") ∧
    (file.size = 16777216 →
      file.type ∈ ["image/png", "image/jpg", "image/jpeg", "image/gif", "image/webp"] →
      handleFileSelect file = FileOutcome.readAsDataURL file) := by
  have hmax : maxSize = 16777216 := by decide
  by_cases hsize : file.size > 16777216
  · have hno : ¬ file.size ≤ 16777216 := by omega
    simp [handleFileSelect, hmax, hsize, hno]
    omega
  · have hle : file.size ≤ 16777216 := by omega
    by_cases htype : file.type ∈ ["image/png", "image/jpg", "image/jpeg", "image/gif", "image/webp"]
    · have hc : allowedTypes.contains file.type = true := by
        simpa [allowedTypes] using htype
      simp only [handleFileSelect, hmax, hsize, if_false, hc, Bool.not_true]
      simp [hle, htype]
    · have hc : allowedTypes.contains file.type = false := by
        simpa [allowedTypes] using htype
      simp only [handleFileSelect, hmax, hsize, if_false, hc, Bool.not_false, if_true]
      simp [hle, htype]

/-- C10, worked instances: one byte over the limit, exactly the limit, a type off the list. -/
theorem handleFileSelect_allow_list_witness :
    (handleFileSelect (samplePng 16777217) =
      FileOutcome.alert "File is too large. Maximum size is 16MB." "error") ∧
    (handleFileSelect (samplePng 16777216) = FileOutcome.readAsDataURL (samplePng 16777216)) ∧
    (∃ message, handleFileSelect { samplePng 10 with type := "image/svg+xml" } =
      FileOutcome.alert message "error") :=
  ⟨(handleFileSelect_allow_list (samplePng 16777217)).2.2.2.1 (by decide),
   (handleFileSelect_allow_list (samplePng 16777216)).2.2.2.2.2 rfl (by decide),
   (handleFileSelect_allow_list { samplePng 10 with type := "image/svg+xml" }).2.1 (by decide)⟩

/-- C11. Empty-canvas submission is rejected: on the drawing page (the `model-name`
input is there and main.js has defined `window.ShapeShift3D`), in every state in which
`isCanvasEmpty()` is true, that is, the canvas encodes identically to the all-white
canvas of the same size, `saveDrawing` returns after the one call
`showAlert('Please draw something before saving.', 'error')`: no POST to `/draw`, no
timer, the page with its save button as before, the module state with its history
and cursor unchanged. -/
theorem saveDrawing_rejects_empty_canvas (B : Browser) (textOf : String → String)
    (page : Page) (s : State) (value : String)
    (hname : page.modelName = some value) (hmain : page.shapeShift3D = true)
    (hempty : isCanvasEmpty B s = some true) :
    (∃ cv, s.canvas = some cv ∧
      B.toDataURL cv.bitmap =
        B.toDataURL (blankBitmap cv.bitmap.width cv.bitmap.height)) ∧
    ∃ r, saveDrawing B textOf page s = .ok r ∧
      r.effects = [Effect.showAlert "Please draw something before saving." "error"] ∧
      (∀ url data name, Effect.fetchPost url data name ∉ r.effects) ∧
      (∀ timer, Effect.setTimeout timer ∉ r.effects) ∧
      r.page = page ∧
      r.page.saveBtn = page.saveBtn ∧
      r.state = s ∧
      r.state.drawingHistory = s.drawingHistory ∧
      r.state.historyStep = s.historyStep := by
  constructor
  · unfold isCanvasEmpty at hempty
    cases hcv : s.canvas with
    | none => simp [hcv] at hempty
    | some cv =>
      simp only [hcv, Option.some.injEq, decide_eq_true_eq] at hempty
      exact ⟨cv, rfl, hempty⟩
  · refine ⟨{ state := s, page := page,
              effects := [Effect.showAlert "Please draw something before saving." "error"] },
      ?_, rfl, ?_, ?_, rfl, rfl, rfl, rfl, rfl⟩
    · simp [saveDrawing, hname, hempty, hmain]
    · intro url data name h
      simp at h
    · intro timer h
      simp at h

/-- C11, a worked instance: a blank canvas on the sample page. -/
theorem saveDrawing_rejects_empty_canvas_witness :
    (samplePage.modelName = some "chair" ∧ samplePage.shapeShift3D = true ∧
      isCanvasEmpty sampleBrowser sampleState = some true) ∧
    ∃ r, saveDrawing sampleBrowser sampleTextOf samplePage sampleState = .ok r ∧
      r.effects = [Effect.showAlert "Please draw something before saving." "error"] ∧
      r.page = samplePage ∧ r.state = sampleState :=
  ⟨⟨rfl, rfl, by decide⟩,
   match (saveDrawing_rejects_empty_canvas sampleBrowser sampleTextOf samplePage sampleState
      "chair" rfl rfl (by decide)).2 with
   | ⟨r, h1, h2, _, _, h5, _, h7, _⟩ => ⟨r, h1, h2, h5, h7⟩⟩

/-- C12. One snapshot per completed stroke.  With a canvas and a valid cursor,
`stopDrawing` with `isDrawing` true returns, sets `isDrawing` to false and commits
exactly one snapshot, the encoding of the current canvas (appended to the whole
history when the cursor was at the tip).  With `isDrawing` false, `stopDrawing`
changes nothing.  Hence a stroke (pointer down by mouse or touch, any number of moves,
then one or more of `mouseup`, `mouseout`, `touchend`) from a state with the cursor at
the tip adds exactly one snapshot to the history, moves the cursor onto it and leaves
`isDrawing` false. -/
theorem one_snapshot_per_stroke (B : Browser) :
    (∀ (s : State) (cv : Canvas), s.canvas = some cv → 0 ≤ s.historyStep →
      s.historyStep < (s.drawingHistory.length : Int) → s.isDrawing = true →
      ∃ s2, stopDrawing B s = .ok s2 ∧ s2.isDrawing = false ∧
        s2.drawingHistory =
          s.drawingHistory.take (s.historyStep.toNat + 1) ++ [B.toDataURL cv.bitmap] ∧
        s2.historyStep = s.historyStep + 1 ∧
        (s.historyStep = (s.drawingHistory.length : Int) - 1 →
          s2.drawingHistory = s.drawingHistory ++ [B.toDataURL cv.bitmap] ∧
          s2.drawingHistory.length = s.drawingHistory.length + 1)) ∧
    (∀ s : State, s.isDrawing = false → stopDrawing B s = .ok s) ∧
    (∀ (s : State) (down : CanvasEvent) (moves stops : List CanvasEvent),
      s.canvas ≠ none → 0 ≤ s.historyStep →
      s.historyStep = (s.drawingHistory.length : Int) - 1 →
      (∃ p, down = CanvasEvent.mousedown p ∨ down = CanvasEvent.touchstart p) →
      (∀ e ∈ moves, ∃ p, e = CanvasEvent.mousemove p ∨ e = CanvasEvent.touchmove p) →
      (∀ e ∈ stops, e = CanvasEvent.mouseup ∨ e = CanvasEvent.mouseout ∨
        e = CanvasEvent.touchend) →
      stops ≠ [] →
      ∃ snap,
        (runEvents B s (down :: (moves ++ stops))).drawingHistory =
          s.drawingHistory ++ [snap] ∧
        (runEvents B s (down :: (moves ++ stops))).drawingHistory.length =
          s.drawingHistory.length + 1 ∧
        (runEvents B s (down :: (moves ++ stops))).historyStep = s.historyStep + 1 ∧
        (runEvents B s (down :: (moves ++ stops))).isDrawing = false) := by
  refine ⟨?_, ?_, ?_⟩
  · intro s cv hcv h0 h1 hd
    refine ⟨_, stopDrawing_commits B s cv hcv h0 h1 hd, rfl, rfl, rfl, ?_⟩
    intro htip
    have ht := take_tip s.drawingHistory s.historyStep htip
    constructor
    · show s.drawingHistory.take (s.historyStep.toNat + 1) ++ _ = _
      rw [ht]
    · show (s.drawingHistory.take (s.historyStep.toNat + 1) ++ _).length = _
      rw [ht]; simp
  · intro s hd
    simp [stopDrawing, hd]
  · intro s down moves stops hc h0 htip hdown hmoves hstops hne
    have hs : Seeded s := by
      refine ⟨hc, ?_, h0, by omega⟩
      intro hnil
      rw [hnil] at htip
      simp at htip
      omega
    obtain ⟨cv, _, hh, hstep, hd⟩ := run_stroke_events B s down moves stops hs
      (by
        obtain ⟨p, hp⟩ := hdown
        exact ⟨p, by rcases hp with hp | hp <;> rw [hp] <;> rfl⟩)
      (by
        intro e he
        obtain ⟨p, hp⟩ := hmoves e he
        exact ⟨p, by rcases hp with hp | hp <;> rw [hp] <;> rfl⟩)
      (by
        intro e he
        rcases hstops e he with h | h | h <;> rw [h] <;> rfl)
      hne
    rw [take_tip s.drawingHistory s.historyStep htip] at hh
    exact ⟨_, hh, by rw [hh]; simp, hstep, hd⟩

/-- C12, worked instances: a stop while drawing, a stop while idle, and a stroke ended
by `mouseup` and then `mouseout`. -/
theorem one_snapshot_per_stroke_witness :
    (∃ s2, stopDrawing sampleBrowser { sampleTip with isDrawing := true } = .ok s2 ∧
      s2.isDrawing = false ∧
      s2.drawingHistory = ["s0", "s1", "s2", "s3", "white"] ∧
      s2.historyStep = 4) ∧
    stopDrawing sampleBrowser sampleTip = .ok sampleTip ∧
    (∃ snap,
      (runEvents sampleBrowser sampleTip (CanvasEvent.mousedown ⟨1, 1⟩ ::
        (sampleStroke ++ [CanvasEvent.mouseup, CanvasEvent.mouseout]))).drawingHistory =
        ["s0", "s1", "s2", "s3"] ++ [snap] ∧
      (runEvents sampleBrowser sampleTip (CanvasEvent.mousedown ⟨1, 1⟩ ::
        (sampleStroke ++ [CanvasEvent.mouseup, CanvasEvent.mouseout]))).historyStep = 4) :=
  ⟨match (one_snapshot_per_stroke sampleBrowser).1 { sampleTip with isDrawing := true }
      sampleCanvas rfl (by decide) (by decide) rfl with
    | ⟨s2, h1, h2, _, h4, h5⟩ => ⟨s2, h1, h2, (h5 rfl).1, h4⟩,
   (one_snapshot_per_stroke sampleBrowser).2.1 sampleTip rfl,
   match (one_snapshot_per_stroke sampleBrowser).2.2 sampleTip (CanvasEvent.mousedown ⟨1, 1⟩)
      sampleStroke [CanvasEvent.mouseup, CanvasEvent.mouseout]
      (by decide) (by decide) rfl ⟨⟨1, 1⟩, Or.inl rfl⟩
      (by
        intro e he
        simp only [sampleStroke, List.mem_cons, List.mem_singleton, List.not_mem_nil,
          or_false] at he
        rcases he with he | he
        · exact ⟨⟨2, 2⟩, Or.inl he⟩
        · exact ⟨⟨3, 2⟩, Or.inr he⟩)
      (by decide) (by decide) with
    | ⟨snap, h1, _, h3, _⟩ => ⟨snap, h1, h3⟩⟩

/-- C13. Busy state is cleared after the fixed delay: for every button,
`addLoadingState` sets `disabled` to true, replaces the content with the spinner markup
and sets one timer of 10000 ms; whenever that timer fires, whatever became of the
button in between, the button has `disabled = false` and the text content it had at
the call.  In `saveDrawing` that timer is the only one set and the only change to the
save button; the handlers of the response leave the page as it is and set no timer
but the redirect, so nothing else clears the busy state. -/
theorem busy_state_cleared_after_delay (textOf : String → String) (button : Button) :
    (addLoadingState textOf button).1.disabled = true ∧
    (addLoadingState textOf button).1.content =
      Content.html "<span class=\"spinner\"></span> Processing..." ∧
    (addLoadingState textOf button).2.delay = 10000 ∧
    (∀ later : Button,
      ((addLoadingState textOf button).2.callback.fire later).disabled = false ∧
      ((addLoadingState textOf button).2.callback.fire later).textContent textOf =
        button.textContent textOf) ∧
    (∀ (B : Browser) (page : Page) (s : State) (r : Submission),
      page.saveBtn = some button → saveDrawing B textOf page s = .ok r →
      (r.page.saveBtn = some button ∨ r.page.saveBtn = some (addLoadingState textOf button).1) ∧
      ∀ timer, Effect.setTimeout timer ∈ r.effects →
        timer = (addLoadingState textOf button).2 ∧
        r.page.saveBtn = some (addLoadingState textOf button).1) ∧
    (∀ (page : Page) (result : FetchResult),
      (saveDrawingSettled page result).1 = page ∧
      ∀ timer, Effect.setTimeout timer ∈ (saveDrawingSettled page result).2 →
        timer = { callback := TimerCallback.redirect "/models", delay := 2000 }) := by
  refine ⟨rfl, rfl, rfl, fun later => ⟨rfl, rfl⟩, ?_, ?_⟩
  · intro B page s r hbtn hsave
    unfold saveDrawing at hsave
    cases hname : page.modelName with
    | none => simp [hname] at hsave
    | some value =>
      simp only [hname] at hsave
      cases hempty : isCanvasEmpty B s with
      | none => simp [hempty] at hsave
      | some e =>
        cases e with
        | true =>
          simp only [hempty] at hsave
          split at hsave <;>
            (cases hsave
             exact ⟨Or.inl hbtn, fun timer h => by simp at h⟩)
        | false =>
          simp only [hempty] at hsave
          cases hcv : s.canvas with
          | none => simp [hcv] at hsave
          | some cv =>
            simp only [hcv, hbtn] at hsave
            split at hsave
            · cases hsave
              refine ⟨Or.inr rfl, fun timer h => ?_⟩
              simp at h
              exact ⟨h, rfl⟩
            · cases hsave
              exact ⟨Or.inl hbtn, fun timer h => by simp at h⟩
  · intro page result
    refine ⟨?_, fun timer h => ?_⟩
    · cases result with
      | json success error => cases success <;> rfl
      | failed => rfl
    · cases result with
      | json success error =>
        cases success with
        | true =>
          simp only [saveDrawingSettled] at h
          split at h <;> simp at h <;> exact h
        | false =>
          simp only [saveDrawingSettled] at h
          split at h <;> simp at h
      | failed =>
        simp only [saveDrawingSettled] at h
        split at h <;> simp at h

/-- C13, a worked instance: a drawing is submitted from the sample page, the save button
turns busy and its timer restores the label. -/
theorem busy_state_cleared_after_delay_witness :
    (samplePage.saveBtn = some sampleButton) ∧
    (∃ r, saveDrawing sampleBrowser sampleTextOf samplePage sampleDrawnState = .ok r ∧
      Effect.setTimeout { callback := TimerCallback.resetButton " Save Drawing",
                          delay := 10000 } ∈ r.effects ∧
      r.page.saveBtn = some { disabled := true, content := Content.html spinnerMarkup }) ∧
    ((TimerCallback.resetButton " Save Drawing").fire
        { disabled := true, content := Content.html spinnerMarkup } =
      { disabled := false, content := Content.text " Save Drawing" }) :=
  ⟨rfl,
   ⟨_, rfl, by decide,
    (((busy_state_cleared_after_delay sampleTextOf sampleButton).2.2.2.2.1 sampleBrowser
      samplePage sampleDrawnState _ rfl rfl).2
      { callback := TimerCallback.resetButton " Save Drawing", delay := 10000 }
      (by decide)).2⟩,
   rfl⟩

/-- C14. The function `generateUUID` always produces a well-formed version-4
identifier: whatever values in the range of `Math.random()` the calls return, the
result has exactly 36 characters, a hyphen at the indices 8, 13, 18 and 23 and nowhere
else, the character `4` at index 14, one of `8`, `9`, `a`, `b` at index 19, and a
lowercase hexadecimal digit at every other index. -/
theorem generateUUID_well_formed (random : Nat → Fraction)
    (hrand : ∀ n, (random n).InUnit) :
    (generateUUID random).length = 36 ∧
    (∀ i : Nat, (generateUUID random).data[i]? = some '-' ↔
      (i = 8 ∨ i = 13 ∨ i = 18 ∨ i = 23)) ∧
    (generateUUID random).data[14]? = some '4' ∧
    (∃ c ∈ ['8', '9', 'a', 'b'], (generateUUID random).data[19]? = some c) ∧
    (∀ i : Nat, i < 36 → ¬ (i = 8 ∨ i = 13 ∨ i = 18 ∨ i = 23) → i ≠ 14 → i ≠ 19 →
      ∃ c ∈ ['0', '1', '2', '3', '4', '5', '6', '7', '8', '9', 'a', 'b', 'c', 'd', 'e', 'f'],
        (generateUUID random).data[i]? = some c) := by
  obtain ⟨hlen, hget⟩ := replaceXY_spec random hrand uuidTemplate.data 0
  have hdata : (generateUUID random).data = replaceXY random uuidTemplate.data 0 := rfl
  have htlen : uuidTemplate.data.length = 36 := by decide
  have hH : ∀ i < 36, (i = 8 ∨ i = 13 ∨ i = 18 ∨ i = 23) →
      uuidTemplate.data[i]? = some '-' := by decide
  have h4 : uuidTemplate.data[14]? = some '4' := by decide
  have hy : uuidTemplate.data[19]? = some 'y' := by decide
  have hx : ∀ i < 36, ¬ (i = 8 ∨ i = 13 ∨ i = 18 ∨ i = 23) → i ≠ 14 → i ≠ 19 →
      uuidTemplate.data[i]? = some 'x' := by decide
  rw [hdata]
  refine ⟨?_, ?_, ?_, ?_, ?_⟩
  · show (replaceXY random uuidTemplate.data 0).length = 36
    rw [hlen, htlen]
  · intro i
    constructor
    · intro hi
      have hlt : i < 36 := by
        have := (List.getElem?_eq_some.mp hi).1
        omega
      by_contra hno
      by_cases hi14 : i = 14
      · obtain ⟨c, hc, hrel⟩ := hget 14 '4' h4
        rw [hi14, hc] at hi
        have := replacedBy_four c hrel
        rw [this] at hi
        exact absurd hi (by decide)
      · by_cases hi19 : i = 19
        · obtain ⟨c, hc, hrel⟩ := hget 19 'y' hy
          rw [hi19, hc] at hi
          have hmem := replacedBy_y c hrel
          rw [Option.some.injEq] at hi
          rw [hi] at hmem
          exact absurd hmem (by decide)
        · obtain ⟨c, hc, hrel⟩ := hget i 'x' (hx i hlt hno hi14 hi19)
          rw [hc, Option.some.injEq] at hi
          have hmem := replacedBy_x c hrel
          rw [hi] at hmem
          exact absurd hmem (by decide)
    · intro hi
      have hlt : i < 36 := by omega
      obtain ⟨c, hc, hrel⟩ := hget i '-' (hH i hlt hi)
      rw [hc, replacedBy_hyphen c hrel]
  · obtain ⟨c, hc, hrel⟩ := hget 14 '4' h4
    rw [hc, replacedBy_four c hrel]
  · obtain ⟨c, hc, hrel⟩ := hget 19 'y' hy
    exact ⟨c, replacedBy_y c hrel, hc⟩
  · intro i hlt hno hi14 hi19
    obtain ⟨c, hc, hrel⟩ := hget i 'x' (hx i hlt hno hi14 hi19)
    exact ⟨c, replacedBy_x c hrel, hc⟩

/-- C14, a worked instance: the identifier for the sample stream. -/
theorem generateUUID_well_formed_witness :
    (∀ n, (sampleRandom n).InUnit) ∧
    generateUUID sampleRandom = "01234567-89ab-4cde-b012-3456789abcde" ∧
    (generateUUID sampleRandom).length = 36 ∧
    (generateUUID sampleRandom).data[14]? = some '4' :=
  ⟨sampleRandom_range, by decide,
   (generateUUID_well_formed sampleRandom sampleRandom_range).1,
   (generateUUID_well_formed sampleRandom sampleRandom_range).2.2.1⟩

end ShapeShift3D
